import Mathlib

/-!
Verification development for the call-based attendance and sales-incentive
modules of the horilla-hrms repository.

The definitions below are shallow embeddings of the Python source:
  - attendance/call_attendance_services.py  (CallAttendanceService)
  - attendance/call_attendance_models.py    (CallAttendanceConfig.save and row types)
  - sales_incentive_models.py               (IncentiveCalculation.calculate_incentive)
  - sales_incentive_service.py              (SalesIncentiveService.get_incentive_preview)
  - sales_incentive/validators.py           (IncentiveValidator, AttendanceValidator)

Conventions: Django model rows become structures; querysets become lists
carried in an explicit `DB` state; dates and employee primary keys are
natural-number codes; Decimal amounts are rationals; functions that raise
Django exceptions return `Except String`.
-/

namespace HorillaHrms

/-- Attendance status choices of CallAttendance.ATTENDANCE_STATUS_CHOICES. -/
inductive Status where
  | PRESENT
  | HALF_DAY
  | ABSENT
deriving DecidableEq, Repr

/-- Provenance tag choices of CallAttendance.SOURCE_CHOICES. -/
inductive Source where
  | AUTO
  | MANUAL
deriving DecidableEq, Repr

/-- Row of attendance/call_attendance_models.CallAttendanceConfig. -/
structure CallAttendanceConfigRow where
  id : ℕ
  full_day_minutes : ℕ
  half_day_minutes : ℕ
  absent_threshold_minutes : ℕ
  is_active : Bool
deriving DecidableEq, Repr

/-- Embeds CallAttendanceService.calculate_attendance_status
(attendance/call_attendance_services.py lines 33-49): full-day check first,
then half-day check, else ABSENT. -/
def CallAttendanceService.calculate_attendance_status (call_minutes : ℕ)
    (config : CallAttendanceConfigRow) : Status :=
  if config.full_day_minutes ≤ call_minutes then .PRESENT
  else if config.half_day_minutes ≤ call_minutes then .HALF_DAY
  else .ABSENT

/-- Row of sales_incentive_models.IncentiveSlab.  Amounts are in Lac;
max_amount is nullable (None means unbounded above). -/
structure IncentiveSlab where
  min_amount : ℚ
  max_amount : Option ℚ
  incentive_per_lac : ℚ
  is_active : Bool
deriving DecidableEq, Repr

/-- Two-argument Python min on rationals, written out so that concrete
values reduce by computation. -/
def qmin (a b : ℚ) : ℚ := if a ≤ b then a else b

/-- Insertion step for sortByMin. -/
def insertByMin (s : IncentiveSlab) : List IncentiveSlab → List IncentiveSlab
  | [] => [s]
  | t :: ts => if s.min_amount ≤ t.min_amount then s :: t :: ts else t :: insertByMin s ts

/-- Stable sort on min_amount, modelling the SQL order_by min_amount. -/
def sortByMin : List IncentiveSlab → List IncentiveSlab
  | [] => []
  | s :: ss => insertByMin s (sortByMin ss)

/-- Models the queryset IncentiveSlab.objects.filter(is_active=True).order_by
min_amount used by both the persisted calculation and the preview. -/
def activeByMin (slabs : List IncentiveSlab) : List IncentiveSlab :=
  sortByMin (slabs.filter (·.is_active))

/-- Embeds the slab loop of IncentiveCalculation.calculate_incentive
(sales_incentive_models.py lines 269-284).  The running variable amount_lac
is mutated inside the loop; a slab contributes only when the current
amount_lac lies inside its band; the loop breaks once amount_lac reaches 0.
The Python expression `(slab.max_amount - slab.min_amount + 1) if
slab.max_amount else amount_lac` is truthiness-based, so a zero max behaves
like None. -/
def slabIncentiveLoop : List IncentiveSlab → ℚ → ℚ
  | [], _ => 0
  | slab :: rest, amount_lac =>
    if slab.min_amount ≤ amount_lac then
      match slab.max_amount with
      | none =>
        let slab_amount := qmin (amount_lac - slab.min_amount + 1) amount_lac
        if amount_lac - slab_amount ≤ 0 then slab_amount * slab.incentive_per_lac
        else slab_amount * slab.incentive_per_lac +
          slabIncentiveLoop rest (amount_lac - slab_amount)
      | some mx =>
        if amount_lac ≤ mx then
          let width := if mx = 0 then amount_lac else mx - slab.min_amount + 1
          let slab_amount := qmin (amount_lac - slab.min_amount + 1) width
          if amount_lac - slab_amount ≤ 0 then slab_amount * slab.incentive_per_lac
          else slab_amount * slab.incentive_per_lac +
            slabIncentiveLoop rest (amount_lac - slab_amount)
        else slabIncentiveLoop rest amount_lac
    else slabIncentiveLoop rest amount_lac

/-- Lead row of sales_incentive_models.Lead restricted to the fields
calculate_incentive reads: the disbursed loan amount in rupees and the
points_per_lac rate of its loan type. -/
structure Lead where
  loan_amount : ℚ
  points_per_lac : ℚ
deriving DecidableEq, Repr

/-- Embeds the Lead.loan_amount_lac property. -/
def Lead.loan_amount_lac (l : Lead) : ℚ := l.loan_amount / 100000

/-- Embeds the Lead.points_earned property. -/
def Lead.points_earned (l : Lead) : ℚ := l.loan_amount_lac * l.points_per_lac

/-- Row of sales_incentive_models.IncentiveCalculation restricted to the
fields calculate_incentive writes. -/
structure IncentiveCalculationRow where
  total_disbursed_amount : ℚ
  total_points : ℚ
  incentive_amount : ℚ
  waiver_percentage : ℚ
  final_incentive : ℚ
  is_calculated : Bool
deriving DecidableEq, Repr

/-- Embeds IncentiveCalculation.calculate_incentive
(sales_incentive_models.py lines 255-290).  The disbursed_leads parameter
stands for the Lead queryset filtered on the employee, DISBURSED status and
month; slabs stands for the stored IncentiveSlab table, queried through
activeByMin. -/
def IncentiveCalculation.calculate_incentive (self : IncentiveCalculationRow)
    (disbursed_leads : List Lead) (slabs : List IncentiveSlab) : IncentiveCalculationRow :=
  let total := (disbursed_leads.map Lead.loan_amount).sum
  let points := (disbursed_leads.map Lead.points_earned).sum
  let amount_lac := total / 100000
  let incentive := slabIncentiveLoop (activeByMin slabs) amount_lac
  { self with
    total_disbursed_amount := total
    total_points := points
    incentive_amount := incentive
    final_incentive := incentive * (1 - self.waiver_percentage / 100)
    is_calculated := true }

/-- One entry of IncentiveValidator.INCENTIVE_SLABS
(sales_incentive/validators.py lines 141-153). -/
structure SlabDef where
  min_lac : ℚ
  max_lac : Option ℚ
  rate : ℚ
deriving DecidableEq, Repr

/-- The hardcoded slab table IncentiveValidator.INCENTIVE_SLABS. -/
def IncentiveValidator.INCENTIVE_SLABS : List SlabDef :=
  [⟨1, some 5, 300⟩, ⟨6, some 10, 400⟩, ⟨11, some 15, 500⟩, ⟨16, some 20, 600⟩,
   ⟨21, some 25, 700⟩, ⟨26, some 30, 750⟩, ⟨31, some 35, 800⟩, ⟨36, some 40, 850⟩,
   ⟨41, some 45, 900⟩, ⟨46, some 50, 950⟩, ⟨51, none, 1000⟩]

/-- Embeds the loop body of IncentiveValidator.calculate_incentive
(sales_incentive/validators.py lines 161-183).  loan_amount_lac is the
original argument (the guards compare against it), remaining is the
depletable running amount; the loop breaks when remaining reaches 0.  The
nested second guard of the source is kept verbatim even though it repeats
the first. -/
def IncentiveValidator.loop (loan_amount_lac : ℚ) :
    List SlabDef → ℚ → ℚ
  | [], _ => 0
  | slab :: rest, remaining =>
    if remaining ≤ 0 then 0
    else
      let slab_amount := match slab.max_lac with
        | none => remaining
        | some mx => qmin remaining (mx - slab.min_lac + 1)
      if slab.min_lac ≤ loan_amount_lac then
        if slab.max_lac = none ∨ slab.min_lac ≤ loan_amount_lac then
          let applicable_amount := qmin slab_amount remaining
          applicable_amount * slab.rate +
            IncentiveValidator.loop loan_amount_lac rest (remaining - applicable_amount)
        else IncentiveValidator.loop loan_amount_lac rest remaining
      else IncentiveValidator.loop loan_amount_lac rest remaining

/-- Embeds IncentiveValidator.calculate_incentive
(sales_incentive/validators.py lines 155-183): non-positive amounts raise
SalesValidationError before any computation. -/
def IncentiveValidator.calculate_incentive (loan_amount_lac : ℚ) : Except String ℚ :=
  if loan_amount_lac ≤ 0 then .error "Loan amount must be positive"
  else .ok (IncentiveValidator.loop loan_amount_lac
    IncentiveValidator.INCENTIVE_SLABS loan_amount_lac)

/-- Result of SalesIncentiveService.get_incentive_preview restricted to its
numeric fields (the per-slab breakdown list is presentation data derived
from the same loop). -/
structure PreviewResult where
  total_incentive : ℚ
  final_incentive_after_waiver : ℚ
deriving DecidableEq, Repr

/-- Embeds the slab loop of SalesIncentiveService.get_incentive_preview
(sales_incentive_service.py lines 147-170).  The guard compares the
depleted remaining amount against slab.min_amount; `slab.max_amount or
float(inf)` is truthiness-based, so a None or zero max gives an unbounded
width and the min with infinity reduces to its other operand. -/
def SalesIncentiveService.previewLoop : List IncentiveSlab → ℚ → ℚ
  | [], _ => 0
  | slab :: rest, remaining =>
    if remaining ≤ 0 then 0
    else if slab.min_amount ≤ remaining then
      let slab_amount := match slab.max_amount with
        | none => remaining - slab.min_amount + 1
        | some mx =>
          if mx = 0 then remaining - slab.min_amount + 1
          else qmin (remaining - slab.min_amount + 1) (mx - slab.min_amount + 1)
      if 0 < slab_amount then
        slab_amount * slab.incentive_per_lac +
          SalesIncentiveService.previewLoop rest (remaining - slab_amount)
      else SalesIncentiveService.previewLoop rest remaining
    else SalesIncentiveService.previewLoop rest remaining

/-- Embeds SalesIncentiveService.get_incentive_preview
(sales_incentive_service.py lines 138-176).  slabs stands for the stored
IncentiveSlab table; the final line applies the hardcoded 30 percent waiver
as total_incentive * 0.7. -/
def SalesIncentiveService.get_incentive_preview (slabs : List IncentiveSlab)
    (loan_amount_lac : ℚ) : PreviewResult :=
  let total := SalesIncentiveService.previewLoop (activeByMin slabs) loan_amount_lac
  ⟨total, total * (7 / 10)⟩

/-- The default slab table seeded by the init_sales management command and
mirrored by IncentiveValidator.INCENTIVE_SLABS, as IncentiveSlab rows. -/
def stdSlabs : List IncentiveSlab :=
  [⟨1, some 5, 300, true⟩, ⟨6, some 10, 400, true⟩, ⟨11, some 15, 500, true⟩,
   ⟨16, some 20, 600, true⟩, ⟨21, some 25, 700, true⟩, ⟨26, some 30, 750, true⟩,
   ⟨31, some 35, 800, true⟩, ⟨36, some 40, 850, true⟩, ⟨41, some 45, 900, true⟩,
   ⟨46, some 50, 950, true⟩, ⟨51, none, 1000, true⟩]

/-- Amount-in-band helper: the portion of a whole-Lac amount n that lies in
a band of width w beginning after the first lo units. -/
def bandPart (n lo w : ℕ) : ℕ := min (n - lo) w

/-- Modelled from the spec: section 4.2 guarantees that the total incentive
is the sum of (amount-in-slab times slab-rate) for every slab the amount
spans, over the standard slab table (bands of width 5 starting at 1 Lac,
unbounded final band from 51 Lac at rate 1000).  This definition follows
the wording of the spec and is compared against the embedded calculators. -/
def specTieredTotal (n : ℕ) : ℚ :=
  300 * (bandPart n 0 5 : ℚ) + 400 * (bandPart n 5 5 : ℚ) + 500 * (bandPart n 10 5 : ℚ) +
  600 * (bandPart n 15 5 : ℚ) + 700 * (bandPart n 20 5 : ℚ) + 750 * (bandPart n 25 5 : ℚ) +
  800 * (bandPart n 30 5 : ℚ) + 850 * (bandPart n 35 5 : ℚ) + 900 * (bandPart n 40 5 : ℚ) +
  950 * (bandPart n 45 5 : ℚ) + 1000 * ((n - 50 : ℕ) : ℚ)

/-- Row of attendance/call_attendance_models.CallLog, restricted to the
fields the reconciler reads. -/
structure CallLogRow where
  employee_id : ℕ
  call_date : ℕ
  call_duration_minutes : ℕ
  call_count : ℕ
deriving DecidableEq, Repr

/-- Row of attendance/call_attendance_models.CallAttendance. -/
structure CallAttendanceRow where
  employee_id : ℕ
  attendance_date : ℕ
  call_duration_minutes : ℕ
  call_count : ℕ
  attendance_status : Status
  source : Source
  manual_reason : Option String
  updated_by : Option ℕ
deriving DecidableEq, Repr

/-- Row of attendance/call_attendance_models.CallAttendanceAudit,
restricted to the fields manual_update_attendance writes (the FK to the
attendance row is determined by employee and date, and the timestamp is
wall-clock data outside the embedding). -/
structure CallAttendanceAuditRow where
  employee_id : ℕ
  attendance_date : ℕ
  old_call_duration : ℕ
  old_call_count : ℕ
  old_status : Status
  new_call_duration : ℕ
  new_call_count : ℕ
  new_status : Status
  reason : String
  updated_by : ℕ
deriving DecidableEq, Repr

/-- The stored tables the attendance services read and write.  employees
is the set of Employee primary keys. -/
structure DB where
  employees : List ℕ
  call_logs : List CallLogRow
  configs : List CallAttendanceConfigRow
  attendances : List CallAttendanceRow
  audits : List CallAttendanceAuditRow
deriving DecidableEq, Repr

/-- The (employee_id, attendance_date) uniqueness key of CallAttendance. -/
def sameKey (e d : ℕ) (a : CallAttendanceRow) : Bool :=
  a.employee_id == e && a.attendance_date == d

/-- Models Django update_or_create and get_or_create followed by save on
the unique (employee_id, attendance_date) key: replace the keyed row in
place if present, append otherwise. -/
def upsertAttendance (l : List CallAttendanceRow) (row : CallAttendanceRow) :
    List CallAttendanceRow :=
  if l.any (sameKey row.employee_id row.attendance_date) then
    l.map fun a => if sameKey row.employee_id row.attendance_date a then row else a
  else l ++ [row]

/-- Models the queryset filter CallAttendance.objects.filter(employee_id,
attendance_date, source=MANUAL).first() used as the skip test of the
reconciler (call_attendance_services.py lines 107-115). -/
def hasManualAttendance (l : List CallAttendanceRow) (e d : ℕ) : Bool :=
  l.any fun a => sameKey e d a && a.source == Source.MANUAL

/-- Embeds CallAttendanceService.get_active_config
(call_attendance_services.py lines 27-30): the first stored configuration
with the active flag. -/
def CallAttendanceService.get_active_config (db : DB) : Option CallAttendanceConfigRow :=
  db.configs.find? (·.is_active)

/-- Return value of calculate_daily_attendance. -/
structure ReconcileStats where
  processed : ℕ
  skipped : ℕ
  reason : String
deriving DecidableEq, Repr

/-- Loop body of CallAttendanceService.calculate_daily_attendance
(call_attendance_services.py lines 105-136): skip the call log when a
MANUAL attendance exists for its key, otherwise classify and upsert an
AUTO record with null manual_reason and updated_by. -/
def reconcileStep (config : CallAttendanceConfigRow) (target_date : ℕ)
    (acc : ℕ × ℕ × List CallAttendanceRow) (call_log : CallLogRow) :
    ℕ × ℕ × List CallAttendanceRow :=
  let (processed, skipped, atts) := acc
  if hasManualAttendance atts call_log.employee_id target_date then
    (processed, skipped + 1, atts)
  else
    let status := CallAttendanceService.calculate_attendance_status
      call_log.call_duration_minutes config
    let row : CallAttendanceRow :=
      ⟨call_log.employee_id, target_date, call_log.call_duration_minutes,
        call_log.call_count, status, .AUTO, none, none⟩
    (processed + 1, skipped, upsertAttendance atts row)

/-- Embeds CallAttendanceService.calculate_daily_attendance
(call_attendance_services.py lines 72-142).  is_working_day stands for the
external holiday and weekend calendar; a missing active configuration
raises ValidationError, modelled as an error result paired with the
unchanged state. -/
def CallAttendanceService.calculate_daily_attendance (is_working_day : ℕ → Bool)
    (db : DB) (target_date : ℕ) : Except String ReconcileStats × DB :=
  if ¬ is_working_day target_date then
    (.ok ⟨0, 0, "Non-working day"⟩, db)
  else
    match CallAttendanceService.get_active_config db with
    | none => (.error "No active call attendance configuration found", db)
    | some config =>
      let logs := db.call_logs.filter fun l => l.call_date == target_date
      let out := logs.foldl (reconcileStep config target_date) (0, 0, db.attendances)
      (.ok ⟨out.1, out.2.1, "Success"⟩, { db with attendances := out.2.2 })

/-- The acting Django user as seen by can_update_attendance: the superuser
flag, the optional linked employee (none models Employee.DoesNotExist or a
missing employee_get attribute), the optional work-info job position (the
outer none models a missing employee_work_info attribute, the inner none a
null job_position_id), and the manual_update_call_attendance permission. -/
structure User where
  is_superuser : Bool
  employee : Option ℕ
  work_info_job_position : Option (Option String)
  has_manual_update_perm : Bool
deriving DecidableEq, Repr

/-- Whether the character list p occurs at the head of l. -/
def leadsWith : List Char → List Char → Bool
  | _, [] => true
  | [], _ :: _ => false
  | a :: as, b :: bs => a == b && leadsWith as bs

/-- Whether the character list p occurs anywhere in l: models the Python
expression role in position_name. -/
def containsSub : List Char → List Char → Bool
  | [], p => leadsWith [] p
  | l@(_ :: t), p => leadsWith l p || containsSub t p

/-- Embeds CallAttendanceService.can_update_attendance
(call_attendance_services.py lines 144-173): superusers may update;
otherwise the user needs a linked employee with work info, and passes if
the job position contains a team-leader or manager role name, or holds the
explicit permission; AttributeError and Employee.DoesNotExist yield
False. -/
def CallAttendanceService.can_update_attendance (user : User) : Bool :=
  if user.is_superuser then true
  else
    match user.employee with
    | none => false
    | some _ =>
      match user.work_info_job_position with
      | none => false
      | some none => user.has_manual_update_perm
      | some (some position_name) =>
        if ["team leader", "manager", "tl"].any
            (fun role => containsSub position_name.toLower.toList role.toList) then
          true
        else user.has_manual_update_perm

/-- The (duration, count, status) triple of the stored row at the given
key, or the creation defaults (0, 0, ABSENT) used by get_or_create when no
row exists: these are the pre-update values captured for the audit row. -/
def oldValuesAt (l : List CallAttendanceRow) (e d : ℕ) : ℕ × ℕ × Status :=
  match l.find? (sameKey e d) with
  | some a => (a.call_duration_minutes, a.call_count, a.attendance_status)
  | none => (0, 0, .ABSENT)

/-- Embeds CallAttendanceService.manual_update_attendance
(call_attendance_services.py lines 175-267): permission check, updater
lookup, employee lookup, active configuration, classification of the new
duration, get_or_create plus field overwrite plus save (one upsert of the
final MANUAL row), and exactly one appended audit row.  The source
hardcodes the string Manual update as both manual_reason and the audit
reason; no reason parameter exists. -/
def CallAttendanceService.manual_update_attendance (db : DB) (employee_id : ℕ)
    (attendance_date : ℕ) (call_duration : ℕ) (call_count : ℕ)
    (updated_by_user : User) : Except String (CallAttendanceRow × DB) :=
  if ¬ CallAttendanceService.can_update_attendance updated_by_user then
    .error "You do not have permission to update attendance"
  else
    match updated_by_user.employee with
    | none => .error "User must be associated with an employee"
    | some updated_by =>
      if ¬ db.employees.contains employee_id then .error "Employee not found"
      else
        match CallAttendanceService.get_active_config db with
        | none => .error "No active call attendance configuration found"
        | some config =>
          let new_status := CallAttendanceService.calculate_attendance_status
            call_duration config
          let old := oldValuesAt db.attendances employee_id attendance_date
          let attendance : CallAttendanceRow :=
            ⟨employee_id, attendance_date, call_duration, call_count, new_status,
              .MANUAL, some "Manual update", some updated_by⟩
          let audit : CallAttendanceAuditRow :=
            ⟨employee_id, attendance_date, old.1, old.2.1, old.2.2, call_duration,
              call_count, new_status, "Manual update", updated_by⟩
          .ok (attendance,
            { db with
              attendances := upsertAttendance db.attendances attendance
              audits := db.audits ++ [audit] })

/-- Embeds the reason check of AttendanceValidator.validate_manual_update
(sales_incentive/validators.py lines 100-103): the reason field (which the
caller defaults to the empty string when missing) is recorded as an error
when it is falsy or its stripped length is under 10. -/
def AttendanceValidator.reason_has_error (reason : String) : Bool :=
  reason == "" || reason.trim.length < 10

/-- Embeds CallAttendanceConfig.save
(attendance/call_attendance_models.py lines 108-112): when the saved row
is active, first flip every stored active row to inactive, then persist
the row itself (insert for a new primary key, overwrite for an existing
one). -/
def CallAttendanceConfig.save (configs : List CallAttendanceConfigRow)
    (self : CallAttendanceConfigRow) : List CallAttendanceConfigRow :=
  let configs1 := if self.is_active then
      configs.map fun c => if c.is_active then { c with is_active := false } else c
    else configs
  if configs1.any (fun c => c.id == self.id) then
    configs1.map fun c => if c.id == self.id then self else c
  else configs1 ++ [self]

/-- The AUTO row that reconcileStep writes for a call log. -/
def autoRowOf (config : CallAttendanceConfigRow) (target_date : ℕ)
    (call_log : CallLogRow) : CallAttendanceRow :=
  ⟨call_log.employee_id, target_date, call_log.call_duration_minutes,
    call_log.call_count,
    CallAttendanceService.calculate_attendance_status
      call_log.call_duration_minutes config, .AUTO, none, none⟩

/-- The attendance fold restricted to its writes: every log upserts its
AUTO row.  Used to state what reconciliation does to the stored rows. -/
def upsertFold (config : CallAttendanceConfigRow) (target_date : ℕ)
    (atts : List CallAttendanceRow) (logs : List CallLogRow) : List CallAttendanceRow :=
  logs.foldl (fun acc lg => upsertAttendance acc (autoRowOf config target_date lg)) atts

/-- The rows keyed like row are present and all equal to row: the state in
which upserting row again is a no-op. -/
def allEqAt (l : List CallAttendanceRow) (row : CallAttendanceRow) : Prop :=
  l.any (sameKey row.employee_id row.attendance_date) = true ∧
  ∀ a ∈ l, sameKey row.employee_id row.attendance_date a = true → a = row

/-! ### Lemmas and claim theorems -/

lemma qmin_eq_left {a b : ℚ} (h : a ≤ b) : qmin a b = a := by
  unfold qmin
  exact if_pos h

lemma qmin_eq_right {a b : ℚ} (h : b ≤ a) : qmin a b = b := by
  unfold qmin
  split
  · exact le_antisymm (by assumption) h
  · rfl

lemma qmin_self (a : ℚ) : qmin a a = a := by
  unfold qmin
  simp

/-- Unfolding step of the validator loop for a bounded slab of width 5 that
the original amount reaches and that the remaining amount fills. -/
lemma IncentiveValidator.loop_cons5 {a r lo mx rate : ℚ} {rest : List SlabDef}
    (hw : mx - lo + 1 = 5) (hmin : lo ≤ a) (hr : 5 ≤ r) :
    IncentiveValidator.loop a (⟨lo, some mx, rate⟩ :: rest) r =
      5 * rate + IncentiveValidator.loop a rest (r - 5) := by
  have hr0 : ¬ r ≤ 0 := by linarith
  simp only [IncentiveValidator.loop, hr0, if_false, hw, hmin, if_true, if_pos (Or.inr hmin)]
  rw [qmin_eq_right hr, qmin_eq_left hr]
  simp

/-- Unfolding step of the validator loop for the unbounded final slab. -/
lemma IncentiveValidator.loop_last {a r : ℚ} (hr : 0 < r) (hmin : (51 : ℚ) ≤ a) :
    IncentiveValidator.loop a [⟨51, none, 1000⟩] r = r * 1000 := by
  have hr0 : ¬ r ≤ 0 := by linarith
  simp only [IncentiveValidator.loop, hr0, if_false, hmin, if_true, qmin_self]
  simp

/-- The validator loop returns 0 as soon as the remaining amount is
depleted. -/
lemma IncentiveValidator.loop_nonpos {a r : ℚ} (l : List SlabDef) (hr : r ≤ 0) :
    IncentiveValidator.loop a l r = 0 := by
  cases l with
  | nil => simp [IncentiveValidator.loop]
  | cons s t => simp [IncentiveValidator.loop, hr]

/-- Unfolding step of the validator loop for a bounded slab that the
original amount reaches and whose width the remaining amount does not
fill: the whole remaining amount is consumed. -/
lemma IncentiveValidator.loop_cons_part {a r lo mx rate : ℚ} {rest : List SlabDef}
    (hmin : lo ≤ a) (h0 : 0 < r) (h5 : r ≤ mx - lo + 1) :
    IncentiveValidator.loop a (⟨lo, some mx, rate⟩ :: rest) r = r * rate := by
  have hr0 : ¬ r ≤ 0 := by linarith
  have hsa : qmin r (mx - lo + 1) = r := qmin_eq_left h5
  simp only [IncentiveValidator.loop, hr0, if_false, hsa, hmin, if_true, qmin_self]
  rw [sub_self, IncentiveValidator.loop_nonpos rest (le_refl 0)]
  simp

/-- The validator loop matches the spec-side tiered total for every
whole-Lac amount of at least 51. -/
lemma IncentiveValidator.loop_eq_spec_ge51 (n : ℕ) (h : 51 ≤ n) :
    IncentiveValidator.loop (n : ℚ) IncentiveValidator.INCENTIVE_SLABS (n : ℚ) =
      specTieredTotal n := by
  have hn : (51 : ℚ) ≤ (n : ℚ) := by exact_mod_cast h
  have hspec : specTieredTotal n = 33750 + 1000 * ((n : ℚ) - 50) := by
    have h50 : ((n - 50 : ℕ) : ℚ) = (n : ℚ) - 50 := by
      have : (50 : ℕ) ≤ n := by omega
      push_cast [this]
      ring
    unfold specTieredTotal bandPart
    rw [Nat.min_eq_right (by omega), Nat.min_eq_right (by omega), Nat.min_eq_right (by omega),
      Nat.min_eq_right (by omega), Nat.min_eq_right (by omega), Nat.min_eq_right (by omega),
      Nat.min_eq_right (by omega), Nat.min_eq_right (by omega), Nat.min_eq_right (by omega),
      Nat.min_eq_right (by omega), h50]
    norm_num
  rw [hspec]
  simp only [IncentiveValidator.INCENTIVE_SLABS]
  rw [IncentiveValidator.loop_cons5 (by norm_num) (by linarith) (by linarith),
    IncentiveValidator.loop_cons5 (by norm_num) (by linarith) (by linarith),
    IncentiveValidator.loop_cons5 (by norm_num) (by linarith) (by linarith),
    IncentiveValidator.loop_cons5 (by norm_num) (by linarith) (by linarith),
    IncentiveValidator.loop_cons5 (by norm_num) (by linarith) (by linarith),
    IncentiveValidator.loop_cons5 (by norm_num) (by linarith) (by linarith),
    IncentiveValidator.loop_cons5 (by norm_num) (by linarith) (by linarith),
    IncentiveValidator.loop_cons5 (by norm_num) (by linarith) (by linarith),
    IncentiveValidator.loop_cons5 (by norm_num) (by linarith) (by linarith),
    IncentiveValidator.loop_cons5 (by norm_num) (by linarith) (by linarith),
    IncentiveValidator.loop_last (by linarith) hn]
  ring


/-- Skip step of the validator loop: a slab whose minimum exceeds the
original amount contributes nothing and leaves the remaining amount
unchanged. -/
lemma IncentiveValidator.loop_skip {a r lo rate : ℚ} {mxo : Option ℚ}
    {rest : List SlabDef} (h0 : ¬ r ≤ 0) (hlo : ¬ lo ≤ a) :
    IncentiveValidator.loop a (⟨lo, mxo, rate⟩ :: rest) r =
      IncentiveValidator.loop a rest r := by
  simp only [IncentiveValidator.loop, h0, if_false, hlo, if_true]

/-- The validator loop matches the spec-side tiered total for every
positive whole-Lac amount: region-by-region analysis over the eleven
slabs. -/
lemma IncentiveValidator.loop_eq_specTiered (n : ℕ) (h : 1 ≤ n) :
    IncentiveValidator.loop (n : ℚ) IncentiveValidator.INCENTIVE_SLABS (n : ℚ) =
      specTieredTotal n := by
  rcases le_or_lt n 5 with hU1 | hL2
  · have q1 : (1 : ℚ) ≤ (n : ℚ) := by exact_mod_cast h
    have q2 : ((n : ℚ)) ≤ 5 := by exact_mod_cast hU1
    have hspec : specTieredTotal n = 300 * (n : ℚ) := by
      unfold specTieredTotal bandPart
      rw [Nat.sub_zero, Nat.min_eq_left (by omega),
        show n - 5 = 0 by omega, show n - 10 = 0 by omega, show n - 15 = 0 by omega,
        show n - 20 = 0 by omega, show n - 25 = 0 by omega, show n - 30 = 0 by omega,
        show n - 35 = 0 by omega, show n - 40 = 0 by omega, show n - 45 = 0 by omega,
        show n - 50 = 0 by omega]
      norm_num
    rw [hspec]
    simp only [IncentiveValidator.INCENTIVE_SLABS]
    rw [IncentiveValidator.loop_cons_part (by linarith) (by linarith) (by linarith)]
    ring
  rcases le_or_lt n 10 with hU2 | hL3
  · have q1 : (6 : ℚ) ≤ (n : ℚ) := by exact_mod_cast (show 6 ≤ n by omega)
    have q2 : ((n : ℚ)) ≤ 10 := by exact_mod_cast hU2
    have hspec : specTieredTotal n = 1500 + 400 * ((n : ℚ) - 5) := by
      have cpart : ((n - 5 : ℕ) : ℚ) = (n : ℚ) - 5 := by
        push_cast [show (5 : ℕ) ≤ n by omega]
        ring
      unfold specTieredTotal bandPart
      rw [Nat.min_eq_right (by omega),
        Nat.min_eq_left (by omega),
        show n - 10 = 0 by omega,
        show n - 15 = 0 by omega,
        show n - 20 = 0 by omega,
        show n - 25 = 0 by omega,
        show n - 30 = 0 by omega,
        show n - 35 = 0 by omega,
        show n - 40 = 0 by omega,
        show n - 45 = 0 by omega,
        show n - 50 = 0 by omega, cpart]
      norm_num
    rw [hspec]
    simp only [IncentiveValidator.INCENTIVE_SLABS]
    rw [IncentiveValidator.loop_cons5 (by norm_num) (by linarith) (by linarith),
      IncentiveValidator.loop_cons_part (by linarith) (by linarith) (by linarith)]
    ring
  rcases le_or_lt n 15 with hU3 | hL4
  · have q1 : (11 : ℚ) ≤ (n : ℚ) := by exact_mod_cast (show 11 ≤ n by omega)
    have q2 : ((n : ℚ)) ≤ 15 := by exact_mod_cast hU3
    have hspec : specTieredTotal n = 3500 + 500 * ((n : ℚ) - 10) := by
      have cpart : ((n - 10 : ℕ) : ℚ) = (n : ℚ) - 10 := by
        push_cast [show (10 : ℕ) ≤ n by omega]
        ring
      unfold specTieredTotal bandPart
      rw [Nat.min_eq_right (by omega),
        Nat.min_eq_right (by omega),
        Nat.min_eq_left (by omega),
        show n - 15 = 0 by omega,
        show n - 20 = 0 by omega,
        show n - 25 = 0 by omega,
        show n - 30 = 0 by omega,
        show n - 35 = 0 by omega,
        show n - 40 = 0 by omega,
        show n - 45 = 0 by omega,
        show n - 50 = 0 by omega, cpart]
      norm_num
    rw [hspec]
    simp only [IncentiveValidator.INCENTIVE_SLABS]
    rw [IncentiveValidator.loop_cons5 (by norm_num) (by linarith) (by linarith),
      IncentiveValidator.loop_cons5 (by norm_num) (by linarith) (by linarith),
      IncentiveValidator.loop_cons_part (by linarith) (by linarith) (by linarith)]
    ring
  rcases le_or_lt n 20 with hU4 | hL5
  · have q1 : (16 : ℚ) ≤ (n : ℚ) := by exact_mod_cast (show 16 ≤ n by omega)
    have q2 : ((n : ℚ)) ≤ 20 := by exact_mod_cast hU4
    have hspec : specTieredTotal n = 6000 + 600 * ((n : ℚ) - 15) := by
      have cpart : ((n - 15 : ℕ) : ℚ) = (n : ℚ) - 15 := by
        push_cast [show (15 : ℕ) ≤ n by omega]
        ring
      unfold specTieredTotal bandPart
      rw [Nat.min_eq_right (by omega),
        Nat.min_eq_right (by omega),
        Nat.min_eq_right (by omega),
        Nat.min_eq_left (by omega),
        show n - 20 = 0 by omega,
        show n - 25 = 0 by omega,
        show n - 30 = 0 by omega,
        show n - 35 = 0 by omega,
        show n - 40 = 0 by omega,
        show n - 45 = 0 by omega,
        show n - 50 = 0 by omega, cpart]
      norm_num
    rw [hspec]
    simp only [IncentiveValidator.INCENTIVE_SLABS]
    rw [IncentiveValidator.loop_cons5 (by norm_num) (by linarith) (by linarith),
      IncentiveValidator.loop_cons5 (by norm_num) (by linarith) (by linarith),
      IncentiveValidator.loop_cons5 (by norm_num) (by linarith) (by linarith),
      IncentiveValidator.loop_cons_part (by linarith) (by linarith) (by linarith)]
    ring
  rcases le_or_lt n 25 with hU5 | hL6
  · have q1 : (21 : ℚ) ≤ (n : ℚ) := by exact_mod_cast (show 21 ≤ n by omega)
    have q2 : ((n : ℚ)) ≤ 25 := by exact_mod_cast hU5
    have hspec : specTieredTotal n = 9000 + 700 * ((n : ℚ) - 20) := by
      have cpart : ((n - 20 : ℕ) : ℚ) = (n : ℚ) - 20 := by
        push_cast [show (20 : ℕ) ≤ n by omega]
        ring
      unfold specTieredTotal bandPart
      rw [Nat.min_eq_right (by omega),
        Nat.min_eq_right (by omega),
        Nat.min_eq_right (by omega),
        Nat.min_eq_right (by omega),
        Nat.min_eq_left (by omega),
        show n - 25 = 0 by omega,
        show n - 30 = 0 by omega,
        show n - 35 = 0 by omega,
        show n - 40 = 0 by omega,
        show n - 45 = 0 by omega,
        show n - 50 = 0 by omega, cpart]
      norm_num
    rw [hspec]
    simp only [IncentiveValidator.INCENTIVE_SLABS]
    rw [IncentiveValidator.loop_cons5 (by norm_num) (by linarith) (by linarith),
      IncentiveValidator.loop_cons5 (by norm_num) (by linarith) (by linarith),
      IncentiveValidator.loop_cons5 (by norm_num) (by linarith) (by linarith),
      IncentiveValidator.loop_cons5 (by norm_num) (by linarith) (by linarith),
      IncentiveValidator.loop_cons_part (by linarith) (by linarith) (by linarith)]
    ring
  rcases le_or_lt n 30 with hU6 | hL7
  · have q1 : (26 : ℚ) ≤ (n : ℚ) := by exact_mod_cast (show 26 ≤ n by omega)
    have q2 : ((n : ℚ)) ≤ 30 := by exact_mod_cast hU6
    have hspec : specTieredTotal n = 12500 + 750 * ((n : ℚ) - 25) := by
      have cpart : ((n - 25 : ℕ) : ℚ) = (n : ℚ) - 25 := by
        push_cast [show (25 : ℕ) ≤ n by omega]
        ring
      unfold specTieredTotal bandPart
      rw [Nat.min_eq_right (by omega),
        Nat.min_eq_right (by omega),
        Nat.min_eq_right (by omega),
        Nat.min_eq_right (by omega),
        Nat.min_eq_right (by omega),
        Nat.min_eq_left (by omega),
        show n - 30 = 0 by omega,
        show n - 35 = 0 by omega,
        show n - 40 = 0 by omega,
        show n - 45 = 0 by omega,
        show n - 50 = 0 by omega, cpart]
      norm_num
    rw [hspec]
    simp only [IncentiveValidator.INCENTIVE_SLABS]
    rw [IncentiveValidator.loop_cons5 (by norm_num) (by linarith) (by linarith),
      IncentiveValidator.loop_cons5 (by norm_num) (by linarith) (by linarith),
      IncentiveValidator.loop_cons5 (by norm_num) (by linarith) (by linarith),
      IncentiveValidator.loop_cons5 (by norm_num) (by linarith) (by linarith),
      IncentiveValidator.loop_cons5 (by norm_num) (by linarith) (by linarith),
      IncentiveValidator.loop_cons_part (by linarith) (by linarith) (by linarith)]
    ring
  rcases le_or_lt n 35 with hU7 | hL8
  · have q1 : (31 : ℚ) ≤ (n : ℚ) := by exact_mod_cast (show 31 ≤ n by omega)
    have q2 : ((n : ℚ)) ≤ 35 := by exact_mod_cast hU7
    have hspec : specTieredTotal n = 16250 + 800 * ((n : ℚ) - 30) := by
      have cpart : ((n - 30 : ℕ) : ℚ) = (n : ℚ) - 30 := by
        push_cast [show (30 : ℕ) ≤ n by omega]
        ring
      unfold specTieredTotal bandPart
      rw [Nat.min_eq_right (by omega),
        Nat.min_eq_right (by omega),
        Nat.min_eq_right (by omega),
        Nat.min_eq_right (by omega),
        Nat.min_eq_right (by omega),
        Nat.min_eq_right (by omega),
        Nat.min_eq_left (by omega),
        show n - 35 = 0 by omega,
        show n - 40 = 0 by omega,
        show n - 45 = 0 by omega,
        show n - 50 = 0 by omega, cpart]
      norm_num
    rw [hspec]
    simp only [IncentiveValidator.INCENTIVE_SLABS]
    rw [IncentiveValidator.loop_cons5 (by norm_num) (by linarith) (by linarith),
      IncentiveValidator.loop_cons5 (by norm_num) (by linarith) (by linarith),
      IncentiveValidator.loop_cons5 (by norm_num) (by linarith) (by linarith),
      IncentiveValidator.loop_cons5 (by norm_num) (by linarith) (by linarith),
      IncentiveValidator.loop_cons5 (by norm_num) (by linarith) (by linarith),
      IncentiveValidator.loop_cons5 (by norm_num) (by linarith) (by linarith),
      IncentiveValidator.loop_cons_part (by linarith) (by linarith) (by linarith)]
    ring
  rcases le_or_lt n 40 with hU8 | hL9
  · have q1 : (36 : ℚ) ≤ (n : ℚ) := by exact_mod_cast (show 36 ≤ n by omega)
    have q2 : ((n : ℚ)) ≤ 40 := by exact_mod_cast hU8
    have hspec : specTieredTotal n = 20250 + 850 * ((n : ℚ) - 35) := by
      have cpart : ((n - 35 : ℕ) : ℚ) = (n : ℚ) - 35 := by
        push_cast [show (35 : ℕ) ≤ n by omega]
        ring
      unfold specTieredTotal bandPart
      rw [Nat.min_eq_right (by omega),
        Nat.min_eq_right (by omega),
        Nat.min_eq_right (by omega),
        Nat.min_eq_right (by omega),
        Nat.min_eq_right (by omega),
        Nat.min_eq_right (by omega),
        Nat.min_eq_right (by omega),
        Nat.min_eq_left (by omega),
        show n - 40 = 0 by omega,
        show n - 45 = 0 by omega,
        show n - 50 = 0 by omega, cpart]
      norm_num
    rw [hspec]
    simp only [IncentiveValidator.INCENTIVE_SLABS]
    rw [IncentiveValidator.loop_cons5 (by norm_num) (by linarith) (by linarith),
      IncentiveValidator.loop_cons5 (by norm_num) (by linarith) (by linarith),
      IncentiveValidator.loop_cons5 (by norm_num) (by linarith) (by linarith),
      IncentiveValidator.loop_cons5 (by norm_num) (by linarith) (by linarith),
      IncentiveValidator.loop_cons5 (by norm_num) (by linarith) (by linarith),
      IncentiveValidator.loop_cons5 (by norm_num) (by linarith) (by linarith),
      IncentiveValidator.loop_cons5 (by norm_num) (by linarith) (by linarith),
      IncentiveValidator.loop_cons_part (by linarith) (by linarith) (by linarith)]
    ring
  rcases le_or_lt n 45 with hU9 | hL10
  · have q1 : (41 : ℚ) ≤ (n : ℚ) := by exact_mod_cast (show 41 ≤ n by omega)
    have q2 : ((n : ℚ)) ≤ 45 := by exact_mod_cast hU9
    have hspec : specTieredTotal n = 24500 + 900 * ((n : ℚ) - 40) := by
      have cpart : ((n - 40 : ℕ) : ℚ) = (n : ℚ) - 40 := by
        push_cast [show (40 : ℕ) ≤ n by omega]
        ring
      unfold specTieredTotal bandPart
      rw [Nat.min_eq_right (by omega),
        Nat.min_eq_right (by omega),
        Nat.min_eq_right (by omega),
        Nat.min_eq_right (by omega),
        Nat.min_eq_right (by omega),
        Nat.min_eq_right (by omega),
        Nat.min_eq_right (by omega),
        Nat.min_eq_right (by omega),
        Nat.min_eq_left (by omega),
        show n - 45 = 0 by omega,
        show n - 50 = 0 by omega, cpart]
      norm_num
    rw [hspec]
    simp only [IncentiveValidator.INCENTIVE_SLABS]
    rw [IncentiveValidator.loop_cons5 (by norm_num) (by linarith) (by linarith),
      IncentiveValidator.loop_cons5 (by norm_num) (by linarith) (by linarith),
      IncentiveValidator.loop_cons5 (by norm_num) (by linarith) (by linarith),
      IncentiveValidator.loop_cons5 (by norm_num) (by linarith) (by linarith),
      IncentiveValidator.loop_cons5 (by norm_num) (by linarith) (by linarith),
      IncentiveValidator.loop_cons5 (by norm_num) (by linarith) (by linarith),
      IncentiveValidator.loop_cons5 (by norm_num) (by linarith) (by linarith),
      IncentiveValidator.loop_cons5 (by norm_num) (by linarith) (by linarith),
      IncentiveValidator.loop_cons_part (by linarith) (by linarith) (by linarith)]
    ring
  rcases le_or_lt n 50 with hU10 | hL11
  · have q1 : (46 : ℚ) ≤ (n : ℚ) := by exact_mod_cast (show 46 ≤ n by omega)
    have q2 : ((n : ℚ)) ≤ 50 := by exact_mod_cast hU10
    have hspec : specTieredTotal n = 29000 + 950 * ((n : ℚ) - 45) := by
      have cpart : ((n - 45 : ℕ) : ℚ) = (n : ℚ) - 45 := by
        push_cast [show (45 : ℕ) ≤ n by omega]
        ring
      unfold specTieredTotal bandPart
      rw [Nat.min_eq_right (by omega),
        Nat.min_eq_right (by omega),
        Nat.min_eq_right (by omega),
        Nat.min_eq_right (by omega),
        Nat.min_eq_right (by omega),
        Nat.min_eq_right (by omega),
        Nat.min_eq_right (by omega),
        Nat.min_eq_right (by omega),
        Nat.min_eq_right (by omega),
        Nat.min_eq_left (by omega),
        show n - 50 = 0 by omega, cpart]
      norm_num
    rw [hspec]
    simp only [IncentiveValidator.INCENTIVE_SLABS]
    rw [IncentiveValidator.loop_cons5 (by norm_num) (by linarith) (by linarith),
      IncentiveValidator.loop_cons5 (by norm_num) (by linarith) (by linarith),
      IncentiveValidator.loop_cons5 (by norm_num) (by linarith) (by linarith),
      IncentiveValidator.loop_cons5 (by norm_num) (by linarith) (by linarith),
      IncentiveValidator.loop_cons5 (by norm_num) (by linarith) (by linarith),
      IncentiveValidator.loop_cons5 (by norm_num) (by linarith) (by linarith),
      IncentiveValidator.loop_cons5 (by norm_num) (by linarith) (by linarith),
      IncentiveValidator.loop_cons5 (by norm_num) (by linarith) (by linarith),
      IncentiveValidator.loop_cons5 (by norm_num) (by linarith) (by linarith),
      IncentiveValidator.loop_cons_part (by linarith) (by linarith) (by linarith)]
    ring

  exact IncentiveValidator.loop_eq_spec_ge51 n (by omega)

/-- Skip step of the persisted-calculation loop: a slab whose minimum
exceeds the current amount contributes nothing. -/
lemma slabIncentiveLoop_skip {a lo rate : ℚ} {mxo : Option ℚ} {act : Bool}
    {rest : List IncentiveSlab} (hlo : ¬ lo ≤ a) :
    slabIncentiveLoop (⟨lo, mxo, rate, act⟩ :: rest) a = slabIncentiveLoop rest a := by
  simp only [slabIncentiveLoop, hlo, if_false]

/-- Skip step of the persisted-calculation loop: a bounded slab whose
maximum lies below the current amount contributes nothing — this is the
branch that loses the lower slabs of a large amount. -/
lemma slabIncentiveLoop_skip_over {a lo mx rate : ℚ} {act : Bool}
    {rest : List IncentiveSlab} (hlo : lo ≤ a) (hmx : ¬ a ≤ mx) :
    slabIncentiveLoop (⟨lo, some mx, rate, act⟩ :: rest) a = slabIncentiveLoop rest a := by
  simp only [slabIncentiveLoop, hlo, if_true, hmx, if_false]

/-- In-band terminating step of the persisted-calculation loop: the amount
lies inside this bounded slab and the band starts at 1 Lac or below, so the
depleted amount reaches zero and the loop stops. -/
lemma slabIncentiveLoop_inband_stop {a lo mx rate : ℚ} {act : Bool}
    {rest : List IncentiveSlab} (hlo : lo ≤ a) (hmx : a ≤ mx) (hmx0 : ¬ mx = 0)
    (hstop : lo - 1 ≤ 0) :
    slabIncentiveLoop (⟨lo, some mx, rate, act⟩ :: rest) a = (a - lo + 1) * rate := by
  have hq : qmin (a - lo + 1) (mx - lo + 1) = a - lo + 1 :=
    qmin_eq_left (by linarith)
  have harg : a - (a - lo + 1) = lo - 1 := by ring
  simp only [slabIncentiveLoop, hlo, if_true, hmx, hmx0, if_false, hq, harg, hstop]

/-- In-band continuing step of the persisted-calculation loop: the amount
lies inside this bounded slab whose band starts above 1 Lac, so after
consuming the portion above the band start a positive residue remains. -/
lemma slabIncentiveLoop_inband_cont {a lo mx rate : ℚ} {act : Bool}
    {rest : List IncentiveSlab} (hlo : lo ≤ a) (hmx : a ≤ mx) (hmx0 : ¬ mx = 0)
    (hcont : ¬ lo - 1 ≤ 0) :
    slabIncentiveLoop (⟨lo, some mx, rate, act⟩ :: rest) a =
      (a - lo + 1) * rate + slabIncentiveLoop rest (lo - 1) := by
  have hq : qmin (a - lo + 1) (mx - lo + 1) = a - lo + 1 :=
    qmin_eq_left (by linarith)
  have harg : a - (a - lo + 1) = lo - 1 := by ring
  simp only [slabIncentiveLoop, hlo, if_true, hmx, hmx0, if_false, hq, harg, hcont]

/-- The preview loop returns 0 once the remaining amount is depleted. -/
lemma previewLoop_nonpos {r : ℚ} (l : List IncentiveSlab) (hr : r ≤ 0) :
    SalesIncentiveService.previewLoop l r = 0 := by
  cases l with
  | nil => simp [SalesIncentiveService.previewLoop]
  | cons s t => simp [SalesIncentiveService.previewLoop, hr]

/-- Skip step of the preview loop: a slab whose minimum exceeds the
remaining amount contributes nothing — this is the branch that loses the
upper slabs once the remaining amount has been depleted below their
minimums. -/
lemma previewLoop_skip {r lo rate : ℚ} {mxo : Option ℚ} {act : Bool}
    {rest : List IncentiveSlab} (h0 : ¬ r ≤ 0) (hlo : ¬ lo ≤ r) :
    SalesIncentiveService.previewLoop (⟨lo, mxo, rate, act⟩ :: rest) r =
      SalesIncentiveService.previewLoop rest r := by
  simp only [SalesIncentiveService.previewLoop, h0, if_false, hlo, if_true]

/-- Full-width step of the preview loop: the remaining amount covers the
whole bounded slab, so the slab width is consumed. -/
lemma previewLoop_take_width {r lo mx rate : ℚ} {act : Bool}
    {rest : List IncentiveSlab} (h0 : ¬ r ≤ 0) (hlo : lo ≤ r) (hmx0 : ¬ mx = 0)
    (hge : mx ≤ r) (hpos : 0 < mx - lo + 1) :
    SalesIncentiveService.previewLoop (⟨lo, some mx, rate, act⟩ :: rest) r =
      (mx - lo + 1) * rate +
        SalesIncentiveService.previewLoop rest (r - (mx - lo + 1)) := by
  have hq : qmin (r - lo + 1) (mx - lo + 1) = mx - lo + 1 :=
    qmin_eq_right (by linarith)
  simp only [SalesIncentiveService.previewLoop, h0, if_false, hlo, if_true, hmx0, hq, hpos]

/-- In-band step of the preview loop: the remaining amount ends inside this
bounded slab, so the portion above the band start is consumed. -/
lemma previewLoop_inband {r lo mx rate : ℚ} {act : Bool}
    {rest : List IncentiveSlab} (h0 : ¬ r ≤ 0) (hlo : lo ≤ r) (hmx0 : ¬ mx = 0)
    (hle : r ≤ mx) (hpos : 0 < r - lo + 1) :
    SalesIncentiveService.previewLoop (⟨lo, some mx, rate, act⟩ :: rest) r =
      (r - lo + 1) * rate + SalesIncentiveService.previewLoop rest (lo - 1) := by
  have hq : qmin (r - lo + 1) (mx - lo + 1) = r - lo + 1 :=
    qmin_eq_left (by linarith)
  have harg : r - (r - lo + 1) = lo - 1 := by ring
  simp only [SalesIncentiveService.previewLoop, h0, if_false, hlo, if_true, hmx0, hq,
    hpos, harg]

/-- The standard slab table is already active and sorted, so the queryset
model leaves it unchanged. -/
lemma activeByMin_stdSlabs : activeByMin stdSlabs = stdSlabs := by
  norm_num [activeByMin, sortByMin, insertByMin, stdSlabs]

/-- The persisted-calculation loop returns 0 when every slab minimum
exceeds the amount. -/
lemma slabIncentiveLoop_all_skip {a : ℚ} (l : List IncentiveSlab)
    (h : ∀ s ∈ l, ¬ s.min_amount ≤ a) : slabIncentiveLoop l a = 0 := by
  induction l with
  | nil => simp [slabIncentiveLoop]
  | cons s t ih =>
    have hs : ¬ s.min_amount ≤ a := h s (List.mem_cons_self s t)
    obtain ⟨lo, mxo, rate, act⟩ := s
    rw [slabIncentiveLoop_skip hs]
    exact ih fun x hx => h x (List.mem_cons_of_mem _ hx)

/-- The preview loop returns 0 when every slab minimum exceeds the
remaining amount. -/
lemma previewLoop_all_skip {r : ℚ} (l : List IncentiveSlab) (h0 : ¬ r ≤ 0)
    (h : ∀ s ∈ l, ¬ s.min_amount ≤ r) : SalesIncentiveService.previewLoop l r = 0 := by
  induction l with
  | nil => simp [SalesIncentiveService.previewLoop]
  | cons s t ih =>
    have hs : ¬ s.min_amount ≤ r := h s (List.mem_cons_self s t)
    obtain ⟨lo, mxo, rate, act⟩ := s
    rw [previewLoop_skip h0 hs]
    exact ih fun x hx => h x (List.mem_cons_of_mem _ hx)

/-- The persisted-calculation loop on the standard slab table at 10 Lac:
slab one is skipped because 10 exceeds its maximum, slab two pays on its
band, every later slab minimum exceeds the residue. -/
lemma slabIncentiveLoop_stdSlabs_10 : slabIncentiveLoop stdSlabs 10 = 2000 := by
  simp only [stdSlabs]
  rw [slabIncentiveLoop_skip_over (by norm_num) (by norm_num),
    slabIncentiveLoop_inband_cont (by norm_num) (by norm_num) (by norm_num) (by norm_num),
    slabIncentiveLoop_skip (by norm_num), slabIncentiveLoop_skip (by norm_num),
    slabIncentiveLoop_skip (by norm_num), slabIncentiveLoop_skip (by norm_num),
    slabIncentiveLoop_skip (by norm_num), slabIncentiveLoop_skip (by norm_num),
    slabIncentiveLoop_skip (by norm_num), slabIncentiveLoop_skip (by norm_num),
    slabIncentiveLoop_skip (by norm_num)]
  norm_num [slabIncentiveLoop]

/-- The preview loop on the standard slab table at 10 Lac: slab one is
paid in full, after which the residue 5 is below every later minimum. -/
lemma previewLoop_stdSlabs_10 : SalesIncentiveService.previewLoop stdSlabs 10 = 1500 := by
  simp only [stdSlabs]
  rw [previewLoop_take_width (by norm_num) (by norm_num) (by norm_num) (by norm_num)
    (by norm_num)]
  rw [previewLoop_skip (by norm_num) (by norm_num), previewLoop_skip (by norm_num) (by norm_num),
    previewLoop_skip (by norm_num) (by norm_num), previewLoop_skip (by norm_num) (by norm_num),
    previewLoop_skip (by norm_num) (by norm_num), previewLoop_skip (by norm_num) (by norm_num),
    previewLoop_skip (by norm_num) (by norm_num), previewLoop_skip (by norm_num) (by norm_num),
    previewLoop_skip (by norm_num) (by norm_num), previewLoop_skip (by norm_num) (by norm_num)]
  norm_num [SalesIncentiveService.previewLoop]

/-- The validator loop at the fractional amount 5.5: slab one is paid in
full, but the residue 0.5 is never paid because the guard compares the
original amount 5.5 against the next minimum 6. -/
lemma IncentiveValidator.loop_5p5 :
    IncentiveValidator.loop (11 / 2) IncentiveValidator.INCENTIVE_SLABS (11 / 2) = 1500 := by
  simp only [IncentiveValidator.INCENTIVE_SLABS]
  rw [IncentiveValidator.loop_cons5 (by norm_num) (by norm_num) (by norm_num)]
  rw [IncentiveValidator.loop_skip (by norm_num) (by norm_num),
    IncentiveValidator.loop_skip (by norm_num) (by norm_num),
    IncentiveValidator.loop_skip (by norm_num) (by norm_num),
    IncentiveValidator.loop_skip (by norm_num) (by norm_num),
    IncentiveValidator.loop_skip (by norm_num) (by norm_num),
    IncentiveValidator.loop_skip (by norm_num) (by norm_num),
    IncentiveValidator.loop_skip (by norm_num) (by norm_num),
    IncentiveValidator.loop_skip (by norm_num) (by norm_num),
    IncentiveValidator.loop_skip (by norm_num) (by norm_num),
    IncentiveValidator.loop_skip (by norm_num) (by norm_num)]
  norm_num [IncentiveValidator.loop]

/-- C1 counterexample: the claim asserts that the incentive calculators are
progressive for every positive amount.  The persisted model calculator
(IncentiveCalculation.calculate_incentive) returns 2000 at a total of
1,000,000 rupees (10 Lac) on the standard slab table, where the progressive
total is 3500 = 5 x 300 + 5 x 400: the slab-one contribution is lost
because the guard amount_lac <= slab.max_amount skips every slab below the
amount.  The validator calculator at the fractional amount 5.5 returns
1500, losing the 0.5 x 400 portion in slab two, where the progressive total
is 1700. -/
theorem C1_counterexample :
    (IncentiveCalculation.calculate_incentive ⟨0, 0, 0, 30, 0, false⟩
      [⟨1000000, 1⟩] stdSlabs).incentive_amount = 2000 ∧
    ((2000 : ℚ) ≠ 3500) ∧
    IncentiveValidator.calculate_incentive (11 / 2) = .ok 1500 ∧
    ((1500 : ℚ) ≠ 1700) := by
  refine ⟨?_, by norm_num, ?_, by norm_num⟩
  · simp only [IncentiveCalculation.calculate_incentive, activeByMin_stdSlabs]
    have hamt : ((List.map Lead.loan_amount [⟨1000000, 1⟩]).sum : ℚ) / 100000 = 10 := by
      norm_num [Lead.loan_amount]
    rw [hamt, slabIncentiveLoop_stdSlabs_10]
  · have h0 : ¬ ((11 : ℚ) / 2 ≤ 0) := by norm_num
    simp only [IncentiveValidator.calculate_incentive, h0, if_false,
      IncentiveValidator.loop_5p5]

/-- C1 (amended): with the standard slab table, the validator calculator
IncentiveValidator.calculate_incentive is strictly progressive for every
positive whole-Lac amount — it returns the sum over the slabs the amount
spans of (portion within the band times the per-Lac rate) — and in
particular calculate(5) = 1500, calculate(10) = 3500, calculate(7) = 2300
and calculate(55) = sum of all lower full slabs plus 5 x 1000; the
persisted model calculator does not satisfy the claim (see the
counterexample), nor does the validator on fractional amounts. -/
theorem C1_progressive_slab_calculator (n : ℕ) (h : 1 ≤ n) :
    IncentiveValidator.calculate_incentive (n : ℚ) = .ok (specTieredTotal n) ∧
    IncentiveValidator.calculate_incentive 5 = .ok 1500 ∧
    IncentiveValidator.calculate_incentive 10 = .ok 3500 ∧
    IncentiveValidator.calculate_incentive 7 = .ok 2300 ∧
    IncentiveValidator.calculate_incentive 55 = .ok (33750 + 5 * 1000) := by
  have general : ∀ m : ℕ, 1 ≤ m →
      IncentiveValidator.calculate_incentive (m : ℚ) = .ok (specTieredTotal m) := by
    intro m hm
    have hpos : (0 : ℚ) < (m : ℚ) := by exact_mod_cast Nat.lt_of_lt_of_le Nat.zero_lt_one hm
    have hneg : ¬ ((m : ℚ) ≤ 0) := not_le.mpr hpos
    simp only [IncentiveValidator.calculate_incentive, hneg, if_false,
      IncentiveValidator.loop_eq_specTiered m hm]
  refine ⟨general n h, ?_, ?_, ?_, ?_⟩
  · have h5 := general 5 (by norm_num)
    have : specTieredTotal 5 = 1500 := by norm_num [specTieredTotal, bandPart]
    rw [this] at h5
    exact_mod_cast h5
  · have h10 := general 10 (by norm_num)
    have : specTieredTotal 10 = 3500 := by norm_num [specTieredTotal, bandPart]
    rw [this] at h10
    exact_mod_cast h10
  · have h7 := general 7 (by norm_num)
    have : specTieredTotal 7 = 2300 := by norm_num [specTieredTotal, bandPart]
    rw [this] at h7
    exact_mod_cast h7
  · have h55 := general 55 (by norm_num)
    have : specTieredTotal 55 = 33750 + 5 * 1000 := by norm_num [specTieredTotal, bandPart]
    rw [this] at h55
    exact_mod_cast h55

/-- C1 witness: the amended theorem applied at the concrete amount 10. -/
theorem C1_witness :
    1 ≤ 10 ∧
    IncentiveValidator.calculate_incentive ((10 : ℕ) : ℚ) = .ok (specTieredTotal 10) :=
  ⟨by decide, (C1_progressive_slab_calculator 10 (by decide)).1⟩

/-- C2: for every duration m and valid active configuration, the embedded
CallAttendanceService.calculate_attendance_status returns PRESENT exactly
when m reaches the full-day threshold, HALF_DAY exactly when m lies in the
half-open band between the half-day and full-day thresholds, ABSENT
otherwise; the boundary values behave as the claim states. -/
theorem C2_classify_thresholds (m : ℕ) (cfg : CallAttendanceConfigRow)
    (hact : cfg.is_active = true)
    (hfh : cfg.half_day_minutes < cfg.full_day_minutes)
    (hha : cfg.absent_threshold_minutes < cfg.half_day_minutes) :
    (CallAttendanceService.calculate_attendance_status m cfg = .PRESENT ↔
      cfg.full_day_minutes ≤ m) ∧
    (CallAttendanceService.calculate_attendance_status m cfg = .HALF_DAY ↔
      cfg.half_day_minutes ≤ m ∧ m < cfg.full_day_minutes) ∧
    (CallAttendanceService.calculate_attendance_status m cfg = .ABSENT ↔
      m < cfg.half_day_minutes) ∧
    CallAttendanceService.calculate_attendance_status cfg.full_day_minutes cfg = .PRESENT ∧
    CallAttendanceService.calculate_attendance_status cfg.half_day_minutes cfg = .HALF_DAY ∧
    CallAttendanceService.calculate_attendance_status (cfg.half_day_minutes - 1) cfg =
      .ABSENT := by
  refine ⟨?_, ?_, ?_, ?_, ?_, ?_⟩ <;>
    simp only [CallAttendanceService.calculate_attendance_status] <;>
    split_ifs <;> first | omega | (simp_all <;> omega) | simp_all

/-- C2 witness: the classification theorem applied to the default
configuration (full 171, half 121, absent 120) at the boundary duration
121, which is a half day. -/
theorem C2_witness :
    (121 : ℕ) < 171 ∧
    CallAttendanceService.calculate_attendance_status 121 ⟨1, 171, 121, 120, true⟩ =
      .HALF_DAY :=
  ⟨by decide,
    (C2_classify_thresholds 121 ⟨1, 171, 121, 120, true⟩ rfl (by decide) (by decide)).2.2.2.2.1⟩

/-- C7 counterexample: the claim asserts that every non-positive amount
passed to the incentive calculator is rejected and never silently returns
zero; the preview calculator SalesIncentiveService.get_incentive_preview
accepts 0 and -3 and silently returns a zero total instead of raising. -/
theorem C7_counterexample :
    (SalesIncentiveService.get_incentive_preview stdSlabs 0).total_incentive = 0 ∧
    (SalesIncentiveService.get_incentive_preview stdSlabs (-3)).total_incentive = 0 := by
  constructor <;>
    · simp only [SalesIncentiveService.get_incentive_preview]
      exact previewLoop_nonpos _ (by norm_num)

/-- C7 (amended): the validator calculator rejects every non-positive
amount with a validation error before computing anything, while the preview
calculator silently returns a zero total for every non-positive amount. -/
theorem C7_nonpositive_amount (a : ℚ) (ha : a ≤ 0) (slabs : List IncentiveSlab) :
    IncentiveValidator.calculate_incentive a = .error "Loan amount must be positive" ∧
    (SalesIncentiveService.get_incentive_preview slabs a).total_incentive = 0 := by
  constructor
  · simp only [IncentiveValidator.calculate_incentive, ha, if_true]
  · simp only [SalesIncentiveService.get_incentive_preview]
    exact previewLoop_nonpos _ ha

/-- C7 witness: the amended theorem applied at amount 0 with the standard
slab table. -/
theorem C7_witness :
    (0 : ℚ) ≤ 0 ∧
    (IncentiveValidator.calculate_incentive 0 = .error "Loan amount must be positive" ∧
      (SalesIncentiveService.get_incentive_preview stdSlabs 0).total_incentive = 0) :=
  ⟨le_refl 0, C7_nonpositive_amount 0 (le_refl 0) stdSlabs⟩

/-- C8: the persisted calculation sets final_incentive to incentive_amount
times (1 - waiver_percentage / 100) for every waiver percentage in the
bounded range, the preview applies the same formula with the hardcoded 30
percent, and a raw incentive of 10,000 with a 30 percent waiver yields a
final incentive of 7,000. -/
theorem C8_waiver_application (self : IncentiveCalculationRow) (leads : List Lead)
    (slabs : List IncentiveSlab) (a : ℚ)
    (h0 : 0 ≤ self.waiver_percentage) (h1 : self.waiver_percentage ≤ 100) :
    (IncentiveCalculation.calculate_incentive self leads slabs).final_incentive =
      (IncentiveCalculation.calculate_incentive self leads slabs).incentive_amount *
        (1 - self.waiver_percentage / 100) ∧
    (SalesIncentiveService.get_incentive_preview slabs a).final_incentive_after_waiver =
      (SalesIncentiveService.get_incentive_preview slabs a).total_incentive *
        (1 - 30 / 100) ∧
    (IncentiveCalculation.calculate_incentive ⟨0, 0, 0, 30, 0, false⟩ [⟨1000000, 0⟩]
      [⟨1, none, 1000, true⟩]).incentive_amount = 10000 ∧
    (IncentiveCalculation.calculate_incentive ⟨0, 0, 0, 30, 0, false⟩ [⟨1000000, 0⟩]
      [⟨1, none, 1000, true⟩]).final_incentive = 7000 := by
  have hsingle : slabIncentiveLoop (activeByMin [⟨1, none, 1000, true⟩])
      (((List.map Lead.loan_amount [⟨1000000, 0⟩]).sum : ℚ) / 100000) = 10000 := by
    norm_num [activeByMin, sortByMin, insertByMin, Lead.loan_amount, slabIncentiveLoop, qmin]
  refine ⟨rfl, ?_, ?_, ?_⟩
  · simp only [SalesIncentiveService.get_incentive_preview]
    norm_num
  · simp only [IncentiveCalculation.calculate_incentive, hsingle]
  · simp only [IncentiveCalculation.calculate_incentive, hsingle]
    norm_num

/-- C8 witness: the waiver theorem applied to a row with waiver 30, leads
totalling 10 Lac and a single unbounded slab at rate 1000. -/
theorem C8_witness :
    (0 : ℚ) ≤ 30 ∧ (30 : ℚ) ≤ 100 ∧
    (IncentiveCalculation.calculate_incentive ⟨0, 0, 0, 30, 0, false⟩ [⟨1000000, 0⟩]
      [⟨1, none, 1000, true⟩]).final_incentive = 7000 :=
  ⟨by norm_num, by norm_num,
    (C8_waiver_application ⟨0, 0, 0, 30, 0, false⟩ [⟨1000000, 0⟩] [⟨1, none, 1000, true⟩] 0
      (by norm_num) (by norm_num)).2.2.2⟩

/-- C10 counterexample: the claim asserts that the preview and the
persisted monthly calculation agree on every positive amount over the same
active slabs; at 10 Lac on the standard slab table the preview pre-waiver
total is 1500 while the persisted slab total is 2000. -/
theorem C10_counterexample :
    (SalesIncentiveService.get_incentive_preview stdSlabs 10).total_incentive = 1500 ∧
    (IncentiveCalculation.calculate_incentive ⟨0, 0, 0, 30, 0, false⟩
      [⟨1000000, 0⟩] stdSlabs).incentive_amount = 2000 ∧
    ((1500 : ℚ) ≠ 2000) := by
  refine ⟨?_, ?_, by norm_num⟩
  · simp only [SalesIncentiveService.get_incentive_preview, activeByMin_stdSlabs,
      previewLoop_stdSlabs_10]
  · simp only [IncentiveCalculation.calculate_incentive, activeByMin_stdSlabs]
    have hamt : ((List.map Lead.loan_amount [⟨1000000, 0⟩]).sum : ℚ) / 100000 = 10 := by
      norm_num [Lead.loan_amount]
    rw [hamt, slabIncentiveLoop_stdSlabs_10]

/-- C10 (amended): on the standard slab table the preview pre-waiver total
and the persisted slab total agree for every positive amount up to the
first slab's maximum of 5 Lac (both return 300 per Lac there, and 0 below
1 Lac); beyond that band they diverge, as the counterexample at 10 Lac
shows. -/
theorem C10_preview_vs_persisted (a : ℚ) (h0 : 0 < a) (h5 : a ≤ 5)
    (row : IncentiveCalculationRow) :
    (SalesIncentiveService.get_incentive_preview stdSlabs a).total_incentive =
      (IncentiveCalculation.calculate_incentive row [⟨a * 100000, 0⟩]
        stdSlabs).incentive_amount := by
  have hamt : ((List.map Lead.loan_amount [⟨a * 100000, 0⟩]).sum : ℚ) / 100000 = a := by
    simp only [List.map, Lead.loan_amount, List.sum_cons, List.sum_nil, add_zero]
    rw [mul_div_assoc]
    norm_num
  simp only [SalesIncentiveService.get_incentive_preview,
    IncentiveCalculation.calculate_incentive, activeByMin_stdSlabs, hamt]
  rcases lt_or_le a 1 with hlt | hge
  · rw [previewLoop_all_skip stdSlabs (by linarith) ?_, slabIncentiveLoop_all_skip stdSlabs ?_]
    all_goals
      intro s hs
      simp only [stdSlabs, List.mem_cons, List.not_mem_nil, or_false] at hs
      rcases hs with rfl | rfl | rfl | rfl | rfl | rfl | rfl | rfl | rfl | rfl | rfl <;>
        · simp only
          linarith
  · simp only [stdSlabs]
    rw [previewLoop_inband (by linarith) hge (by norm_num) h5 (by linarith),
      slabIncentiveLoop_inband_stop hge h5 (by norm_num) (by norm_num),
      previewLoop_nonpos _ (by norm_num)]
    ring

/-- Two rows with the same key have equal employee and date fields. -/
lemma sameKey_fields {e d : ℕ} {a : CallAttendanceRow} (h : sameKey e d a = true) :
    a.employee_id = e ∧ a.attendance_date = d := by
  simpa [sameKey] using h

/-- A row keyed at its own fields matches sameKey. -/
lemma sameKey_self (a : CallAttendanceRow) :
    sameKey a.employee_id a.attendance_date a = true := by
  simp [sameKey]

/-- Replacing the rows keyed like row leaves the rows at any other key
untouched. -/
lemma filter_map_replace (l : List CallAttendanceRow) (row : CallAttendanceRow)
    (e d : ℕ) (hk : sameKey e d row = false) :
    (l.map fun a =>
        if sameKey row.employee_id row.attendance_date a then row else a).filter
      (sameKey e d) = l.filter (sameKey e d) := by
  induction l with
  | nil => rfl
  | cons a t ih =>
    simp only [List.map_cons, List.filter_cons]
    by_cases hm : sameKey row.employee_id row.attendance_date a = true
    · have hfa : sameKey e d a = false := by
        obtain ⟨h1, h2⟩ := sameKey_fields hm
        simp only [sameKey, h1, h2] at hk ⊢
        exact hk
      rw [if_pos hm, hk, hfa]
      simp [ih]
    · rw [if_neg hm]
      simp [ih]

/-- Upserting a row at one key leaves the rows at any other key
untouched. -/
lemma filter_upsertAttendance_ne (l : List CallAttendanceRow)
    (row : CallAttendanceRow) (e d : ℕ) (hk : sameKey e d row = false) :
    (upsertAttendance l row).filter (sameKey e d) = l.filter (sameKey e d) := by
  unfold upsertAttendance
  split
  · exact filter_map_replace l row e d hk
  · rw [List.filter_append]
    simp [hk]

/-- Replacing the rows at a key that holds no MANUAL row by an AUTO row
does not change where MANUAL rows exist. -/
lemma hasManual_map_replace (l : List CallAttendanceRow) (row : CallAttendanceRow)
    (hsrc : row.source = Source.AUTO)
    (hnom : ∀ a ∈ l, sameKey row.employee_id row.attendance_date a = true →
      (a.source == Source.MANUAL) = false) (e d : ℕ) :
    hasManualAttendance
      (l.map fun a =>
        if sameKey row.employee_id row.attendance_date a then row else a) e d =
      hasManualAttendance l e d := by
  have hrow : (row.source == Source.MANUAL) = false := by
    rw [hsrc]
    rfl
  rw [Bool.eq_iff_iff]
  simp only [hasManualAttendance, List.any_eq_true, List.mem_map]
  constructor
  · rintro ⟨b, ⟨x, hx, rfl⟩, hp⟩
    by_cases hm : sameKey row.employee_id row.attendance_date x = true
    · rw [if_pos hm] at hp
      rw [Bool.and_eq_true, hrow] at hp
      exact absurd hp.2 (by simp)
    · rw [if_neg hm] at hp
      exact ⟨x, hx, hp⟩
  · rintro ⟨x, hx, hp⟩
    have hm : sameKey row.employee_id row.attendance_date x = false := by
      by_contra hc
      have hx2 := hnom x hx (by simpa using hc)
      rw [Bool.and_eq_true, hx2] at hp
      exact absurd hp.2 (by simp)
    exact ⟨x, ⟨x, hx, by rw [if_neg (by simp [hm])]⟩, hp⟩

/-- Upserting an AUTO row at a key that holds no MANUAL row does not
change where MANUAL rows exist. -/
lemma hasManual_upsertAttendance (l : List CallAttendanceRow)
    (row : CallAttendanceRow) (hsrc : row.source = Source.AUTO)
    (hnom : hasManualAttendance l row.employee_id row.attendance_date = false)
    (e d : ℕ) :
    hasManualAttendance (upsertAttendance l row) e d = hasManualAttendance l e d := by
  have hnom2 : ∀ a ∈ l, sameKey row.employee_id row.attendance_date a = true →
      (a.source == Source.MANUAL) = false := by
    intro a ha hkk
    have := List.any_eq_false.mp hnom a ha
    simpa [hkk] using this
  have hrow : (row.source == Source.MANUAL) = false := by
    rw [hsrc]
    rfl
  unfold upsertAttendance
  split
  · exact hasManual_map_replace l row hsrc hnom2 e d
  · simp only [hasManualAttendance, List.any_append, List.any_cons, List.any_nil,
      hrow, Bool.and_false, Bool.false_or, Bool.or_false]

/-- Upserting an AUTO row preserves the absence of MANUAL rows. -/
lemma no_manual_upsertAttendance (l : List CallAttendanceRow)
    (row : CallAttendanceRow) (hsrc : row.source = Source.AUTO)
    (hl : ∀ a ∈ l, a.source ≠ Source.MANUAL) :
    ∀ a ∈ upsertAttendance l row, a.source ≠ Source.MANUAL := by
  intro a ha
  unfold upsertAttendance at ha
  split at ha
  · obtain ⟨x, hx, rfl⟩ := List.mem_map.mp ha
    by_cases hm : sameKey row.employee_id row.attendance_date x = true
    · rw [if_pos hm, hsrc]
      intro hc
      cases hc
    · rw [if_neg hm]
      exact hl x hx
  · rcases List.mem_append.mp ha with hmem | hmem
    · exact hl a hmem
    · have hbr : a = row := by simpa using hmem
      rw [hbr, hsrc]
      intro hc
      cases hc

/-- A store with no MANUAL rows reports no MANUAL row at any key. -/
lemma hasManual_eq_false_of_no_manual (l : List CallAttendanceRow)
    (hl : ∀ a ∈ l, a.source ≠ Source.MANUAL) (e d : ℕ) :
    hasManualAttendance l e d = false := by
  rw [hasManualAttendance, List.any_eq_false]
  intro a ha
  simp [hl a ha]

/-- After upserting row, the rows at its key are present and equal row. -/
lemma allEqAt_upsert_self (l : List CallAttendanceRow) (row : CallAttendanceRow) :
    allEqAt (upsertAttendance l row) row := by
  unfold upsertAttendance
  split
  · rename_i hany
    obtain ⟨a, ha, hkk⟩ := List.any_eq_true.mp hany
    constructor
    · refine List.any_eq_true.mpr ⟨row, List.mem_map.mpr ⟨a, ha, by rw [if_pos hkk]⟩, ?_⟩
      exact sameKey_self row
    · intro b hb hkb
      obtain ⟨x, hx, rfl⟩ := List.mem_map.mp hb
      by_cases hxk : sameKey row.employee_id row.attendance_date x = true
      · rw [if_pos hxk]
      · rw [if_neg hxk] at hkb
        exact absurd hkb hxk
  · rename_i hany
    constructor
    · exact List.any_eq_true.mpr
        ⟨row, List.mem_append_right _ (List.mem_singleton_self row), sameKey_self row⟩
    · intro b hb hkb
      rcases List.mem_append.mp hb with hmem | hmem
      · have hf : l.any (sameKey row.employee_id row.attendance_date) = false := by
          simpa using hany
        exact absurd hkb (List.any_eq_false.mp hf b hmem)
      · simpa using hmem

/-- A row keyed like row cannot be keyed like row2 when row2 is keyed
differently from row. -/
lemma sameKey_disjoint {row row2 x : CallAttendanceRow}
    (hk : sameKey row.employee_id row.attendance_date row2 = false)
    (hx : sameKey row.employee_id row.attendance_date x = true) :
    sameKey row2.employee_id row2.attendance_date x = false := by
  obtain ⟨h1, h2⟩ := sameKey_fields hx
  by_contra hc
  obtain ⟨h3, h4⟩ := sameKey_fields (by simpa using hc)
  have hkt : sameKey row.employee_id row.attendance_date row2 = true := by
    simp [sameKey, ← h3, ← h4, h1, h2]
  rw [hkt] at hk
  cases hk

/-- Upserting a row with a different key preserves allEqAt. -/
lemma allEqAt_upsert_ne (l : List CallAttendanceRow) (row row2 : CallAttendanceRow)
    (h : allEqAt l row)
    (hk : sameKey row.employee_id row.attendance_date row2 = false) :
    allEqAt (upsertAttendance l row2) row := by
  obtain ⟨hany, hall⟩ := h
  obtain ⟨a, ha, hka⟩ := List.any_eq_true.mp hany
  have hka2 : sameKey row2.employee_id row2.attendance_date a = false :=
    sameKey_disjoint hk hka
  unfold upsertAttendance
  split
  · constructor
    · refine List.any_eq_true.mpr ⟨a, List.mem_map.mpr ⟨a, ha, ?_⟩, hka⟩
      rw [if_neg (by simp [hka2])]
    · intro b hb hkb
      obtain ⟨x, hx, rfl⟩ := List.mem_map.mp hb
      by_cases hxk : sameKey row2.employee_id row2.attendance_date x = true
      · rw [if_pos hxk] at hkb
        rw [hkb] at hk
        cases hk
      · rw [if_neg hxk] at hkb ⊢
        exact hall x hx hkb
  · constructor
    · exact List.any_eq_true.mpr ⟨a, List.mem_append_left _ ha, hka⟩
    · intro b hb hkb
      rcases List.mem_append.mp hb with hmem | hmem
      · exact hall b hmem hkb
      · have hbr : b = row2 := by simpa using hmem
        rw [hbr] at hkb
        rw [hkb] at hk
        cases hk

/-- Upserting a row into a store where every row at its key already equals
it changes nothing. -/
lemma upsertAttendance_of_allEqAt (l : List CallAttendanceRow)
    (row : CallAttendanceRow) (h : allEqAt l row) : upsertAttendance l row = l := by
  obtain ⟨hany, hall⟩ := h
  unfold upsertAttendance
  rw [if_pos hany]
  have hid : ∀ a ∈ l,
      (if sameKey row.employee_id row.attendance_date a then row else a) = a := by
    intro a ha
    by_cases hkk : sameKey row.employee_id row.attendance_date a = true
    · rw [if_pos hkk, hall a ha hkk]
    · rw [if_neg hkk]
  calc l.map (fun a => if sameKey row.employee_id row.attendance_date a then row else a)
      = l.map id := List.map_congr_left hid
    _ = l := List.map_id l

/-- On a store without MANUAL rows the reconciliation fold processes every
log, skips none, performs exactly the AUTO upserts, and leaves the store
without MANUAL rows. -/
lemma reconcile_fold_no_manual (config : CallAttendanceConfigRow) (d : ℕ)
    (logs : List CallLogRow) :
    ∀ (p s : ℕ) (atts : List CallAttendanceRow),
      (∀ a ∈ atts, a.source ≠ Source.MANUAL) →
      logs.foldl (reconcileStep config d) (p, s, atts) =
        (p + logs.length, s, upsertFold config d atts logs) ∧
      ∀ a ∈ upsertFold config d atts logs, a.source ≠ Source.MANUAL := by
  induction logs with
  | nil =>
    intro p s atts h
    exact ⟨by simp [upsertFold], by simpa [upsertFold] using h⟩
  | cons lg t ih =>
    intro p s atts h
    have hskip : hasManualAttendance atts lg.employee_id d = false :=
      hasManual_eq_false_of_no_manual atts h lg.employee_id d
    have hstep : reconcileStep config d (p, s, atts) lg =
        (p + 1, s, upsertAttendance atts (autoRowOf config d lg)) := by
      simp [reconcileStep, hskip, autoRowOf]
    have h2 : ∀ a ∈ upsertAttendance atts (autoRowOf config d lg),
        a.source ≠ Source.MANUAL :=
      no_manual_upsertAttendance _ _ rfl h
    obtain ⟨e1, e2⟩ := ih (p + 1) s (upsertAttendance atts (autoRowOf config d lg)) h2
    constructor
    · rw [List.foldl_cons, hstep, e1]
      have harith : p + 1 + t.length = p + (t.length + 1) := by omega
      simp [upsertFold, harith]
    · simp only [upsertFold, List.foldl_cons]
      simpa [upsertFold] using e2

/-- allEqAt survives a fold of upserts whose keys all differ from the
tracked row's key. -/
lemma allEqAt_upsertFold (config : CallAttendanceConfigRow) (d : ℕ)
    (t : List CallLogRow) :
    ∀ (atts : List CallAttendanceRow) (row : CallAttendanceRow),
      allEqAt atts row →
      (∀ lg ∈ t,
        sameKey row.employee_id row.attendance_date (autoRowOf config d lg) = false) →
      allEqAt (upsertFold config d atts t) row := by
  induction t with
  | nil => intro atts row h _; simpa [upsertFold] using h
  | cons lg t' ih =>
    intro atts row h hks
    simp only [upsertFold, List.foldl_cons]
    have step : allEqAt (upsertAttendance atts (autoRowOf config d lg)) row :=
      allEqAt_upsert_ne atts row _ h (hks lg (List.mem_cons_self lg t'))
    simpa [upsertFold] using
      ih (upsertAttendance atts (autoRowOf config d lg)) row step
        fun x hx => hks x (List.mem_cons_of_mem lg hx)

/-- After the upsert fold, the rows at each processed log's key all equal
that log's AUTO row, provided the logs carry distinct employees. -/
lemma allEqAt_upsertFold_each (config : CallAttendanceConfigRow) (d : ℕ)
    (logs : List CallLogRow) (hnd : (logs.map (·.employee_id)).Nodup) :
    ∀ (atts : List CallAttendanceRow), ∀ lg ∈ logs,
      allEqAt (upsertFold config d atts logs) (autoRowOf config d lg) := by
  induction logs with
  | nil => intro atts lg h; cases h
  | cons l0 t ih =>
    have hhead : l0.employee_id ∉ t.map (·.employee_id) :=
      (List.nodup_cons.mp (by simpa using hnd)).1
    have hnd' : (t.map (·.employee_id)).Nodup :=
      (List.nodup_cons.mp (by simpa using hnd)).2
    intro atts lg hmem
    rcases List.mem_cons.mp hmem with rfl | hmem'
    · simp only [upsertFold, List.foldl_cons]
      refine allEqAt_upsertFold config d t _ _ (allEqAt_upsert_self atts _) ?_
      intro x hx
      have hne : x.employee_id ≠ lg.employee_id := by
        intro heq
        exact hhead (heq ▸ List.mem_map_of_mem (·.employee_id) hx)
      simp [sameKey, autoRowOf, hne]
    · simp only [upsertFold, List.foldl_cons]
      simpa [upsertFold] using
        ih hnd' (upsertAttendance atts (autoRowOf config d l0)) lg hmem'

/-- The upsert fold is a no-op on a store where every processed log's key
already holds exactly its AUTO row. -/
lemma upsertFold_noop (config : CallAttendanceConfigRow) (d : ℕ)
    (logs : List CallLogRow) :
    ∀ (L : List CallAttendanceRow),
      (∀ lg ∈ logs, allEqAt L (autoRowOf config d lg)) →
      upsertFold config d L logs = L := by
  induction logs with
  | nil => intro L _; rfl
  | cons l0 t ih =>
    intro L h
    simp only [upsertFold, List.foldl_cons]
    rw [upsertAttendance_of_allEqAt L _ (h l0 (List.mem_cons_self l0 t))]
    exact ih L fun x hx => h x (List.mem_cons_of_mem l0 hx)

/-- Repeating the upsert fold changes nothing when the logs carry distinct
employees. -/
lemma upsertFold_idem (config : CallAttendanceConfigRow) (d : ℕ)
    (logs : List CallLogRow) (atts : List CallAttendanceRow)
    (hnd : (logs.map (·.employee_id)).Nodup) :
    upsertFold config d (upsertFold config d atts logs) logs =
      upsertFold config d atts logs :=
  upsertFold_noop config d logs _ (allEqAt_upsertFold_each config d logs hnd atts)

/-- The reconciliation fold never changes where MANUAL rows exist, and its
skipped counter counts exactly the logs whose key holds a MANUAL row. -/
lemma reconcile_fold_stats (config : CallAttendanceConfigRow) (d : ℕ)
    (logs : List CallLogRow) :
    ∀ (p s : ℕ) (atts : List CallAttendanceRow),
      (∀ e2 d2,
        hasManualAttendance ((logs.foldl (reconcileStep config d) (p, s, atts)).2.2) e2 d2 =
          hasManualAttendance atts e2 d2) ∧
      (logs.foldl (reconcileStep config d) (p, s, atts)).2.1 =
        s + logs.countP fun lg => hasManualAttendance atts lg.employee_id d := by
  induction logs with
  | nil => intro p s atts; exact ⟨fun _ _ => rfl, by simp⟩
  | cons lg t ih =>
    intro p s atts
    cases hskip : hasManualAttendance atts lg.employee_id d with
    | true =>
      have hstep : reconcileStep config d (p, s, atts) lg = (p, s + 1, atts) := by
        simp [reconcileStep, hskip]
      obtain ⟨i1, i2⟩ := ih p (s + 1) atts
      refine ⟨?_, ?_⟩
      · intro e2 d2
        rw [List.foldl_cons, hstep, i1 e2 d2]
      · rw [List.foldl_cons, hstep, i2, List.countP_cons]
        simp [hskip] <;> omega
    | false =>
      have hstep : reconcileStep config d (p, s, atts) lg =
          (p + 1, s, upsertAttendance atts (autoRowOf config d lg)) := by
        simp [reconcileStep, hskip, autoRowOf]
      have hpres : ∀ e2 d2,
          hasManualAttendance (upsertAttendance atts (autoRowOf config d lg)) e2 d2 =
            hasManualAttendance atts e2 d2 := by
        intro e2 d2
        exact hasManual_upsertAttendance _ _ rfl (by simpa [autoRowOf] using hskip) e2 d2
      obtain ⟨i1, i2⟩ := ih (p + 1) s (upsertAttendance atts (autoRowOf config d lg))
      refine ⟨?_, ?_⟩
      · intro e2 d2
        rw [List.foldl_cons, hstep, i1 e2 d2, hpres e2 d2]
      · rw [List.foldl_cons, hstep, i2, List.countP_cons]
        have hcong : (t.countP fun lg2 =>
            hasManualAttendance (upsertAttendance atts (autoRowOf config d lg))
              lg2.employee_id d) =
            t.countP fun lg2 => hasManualAttendance atts lg2.employee_id d :=
          List.countP_congr fun lg2 _ => by rw [hpres lg2.employee_id d]
        rw [hcong]
        simp [hskip] <;> omega

/-- The reconciliation fold leaves the rows at a key holding a MANUAL row
untouched. -/
lemma reconcile_fold_filter_manual (config : CallAttendanceConfigRow) (d : ℕ)
    (logs : List CallLogRow) :
    ∀ (p s : ℕ) (atts : List CallAttendanceRow) (e : ℕ),
      hasManualAttendance atts e d = true →
      ((logs.foldl (reconcileStep config d) (p, s, atts)).2.2).filter (sameKey e d) =
        atts.filter (sameKey e d) := by
  induction logs with
  | nil => intro p s atts e _; rfl
  | cons lg t ih =>
    intro p s atts e hman
    cases hskip : hasManualAttendance atts lg.employee_id d with
    | true =>
      have hstep : reconcileStep config d (p, s, atts) lg = (p, s + 1, atts) := by
        simp [reconcileStep, hskip]
      rw [List.foldl_cons, hstep]
      exact ih p (s + 1) atts e hman
    | false =>
      have hstep : reconcileStep config d (p, s, atts) lg =
          (p + 1, s, upsertAttendance atts (autoRowOf config d lg)) := by
        simp [reconcileStep, hskip, autoRowOf]
      have hne : lg.employee_id ≠ e := by
        intro heq
        rw [heq, hman] at hskip
        cases hskip
      have hkey : sameKey e d (autoRowOf config d lg) = false := by
        simp [sameKey, autoRowOf, hne]
      have hman2 : hasManualAttendance (upsertAttendance atts (autoRowOf config d lg))
          e d = true := by
        rw [hasManual_upsertAttendance _ _ rfl (by simpa [autoRowOf] using hskip) e d]
        exact hman
      rw [List.foldl_cons, hstep, ih (p + 1) s _ e hman2]
      exact filter_upsertAttendance_ne atts (autoRowOf config d lg) e d hkey

/-- C3 counterexample: the claim asserts that every (employee, date) key
holding a MANUAL record is counted in the skipped count of reconcileDay for
that date.  In a state holding a MANUAL record for employee 1 on date 5 but
no CallLog for that key, reconciliation on a working day with an active
configuration succeeds with skipped = 0: the key is left untouched but is
not counted, because only call logs are iterated. -/
theorem C3_counterexample :
    (⟨1, 5, 0, 0, .ABSENT, .MANUAL, some "adjusted by TL", none⟩ :
      CallAttendanceRow).source = .MANUAL ∧
    CallAttendanceService.calculate_daily_attendance (fun _ => true)
        ⟨[1], [], [⟨1, 171, 121, 120, true⟩],
          [⟨1, 5, 0, 0, .ABSENT, .MANUAL, some "adjusted by TL", none⟩], []⟩ 5 =
      (.ok ⟨0, 0, "Success"⟩,
        ⟨[1], [], [⟨1, 171, 121, 120, true⟩],
          [⟨1, 5, 0, 0, .ABSENT, .MANUAL, some "adjusted by TL", none⟩], []⟩) :=
  ⟨rfl, rfl⟩

/-- C3 (amended): a MANUAL record is never overwritten by reconcileDay —
the rows at its key are untouched whatever the outcome — and, when the
date is a working day so that reconciliation actually runs, the returned
skipped count equals the number of that day's call logs whose key holds a
MANUAL record; in particular it is at least one as soon as a CallLog
exists for the MANUAL record's key. -/
theorem C3_manual_override_durability (wd : ℕ → Bool) (db : DB) (d : ℕ)
    (a : CallAttendanceRow) (ha : a ∈ db.attendances)
    (hsrc : a.source = Source.MANUAL) (hdate : a.attendance_date = d) :
    ((CallAttendanceService.calculate_daily_attendance wd db d).2).attendances.filter
        (sameKey a.employee_id d) =
      db.attendances.filter (sameKey a.employee_id d) ∧
    ∀ res : ReconcileStats,
      (CallAttendanceService.calculate_daily_attendance wd db d).1 = .ok res →
      wd d = true →
      res.skipped = (db.call_logs.filter fun l => l.call_date == d).countP
          (fun lg => hasManualAttendance db.attendances lg.employee_id d) ∧
      ∀ lg ∈ db.call_logs, lg.employee_id = a.employee_id → lg.call_date = d →
        1 ≤ res.skipped := by
  have hman : hasManualAttendance db.attendances a.employee_id d = true :=
    List.any_eq_true.mpr ⟨a, ha, by simp [sameKey, hdate, hsrc]⟩
  by_cases hw : wd d = true
  · cases hcfg : CallAttendanceService.get_active_config db with
    | none =>
      constructor
      · simp [CallAttendanceService.calculate_daily_attendance, hw, hcfg]
      · intro res hres _
        simp [CallAttendanceService.calculate_daily_attendance, hw, hcfg] at hres
    | some config =>
      constructor
      · simp only [CallAttendanceService.calculate_daily_attendance, hw, not_true,
          if_false, hcfg]
        exact reconcile_fold_filter_manual config d _ 0 0 db.attendances
          a.employee_id hman
      · intro res hres _
        simp only [CallAttendanceService.calculate_daily_attendance, hw, not_true,
          if_false, hcfg, Except.ok.injEq] at hres
        obtain ⟨_, hstats⟩ := reconcile_fold_stats config d
          (db.call_logs.filter fun l => l.call_date == d) 0 0 db.attendances
        constructor
        · rw [← hres]
          simpa using hstats
        · intro lg hlg hemp hld
          rw [← hres]
          simp only
          rw [hstats]
          have hmem : lg ∈ db.call_logs.filter fun l => l.call_date == d :=
            List.mem_filter.mpr ⟨hlg, by simp [hld]⟩
          have hpos : 0 < (db.call_logs.filter fun l => l.call_date == d).countP
              (fun lg2 => hasManualAttendance db.attendances lg2.employee_id d) :=
            List.countP_pos.mpr ⟨lg, hmem, by rw [hemp]; exact hman⟩
          omega
  · constructor
    · simp [CallAttendanceService.calculate_daily_attendance, hw]
    · intro res _ hw2
      exact absurd hw2 hw

/-- C3 witness: the amended theorem applied to a state holding a MANUAL
record for employee 1 on date 5 and a CallLog for the same key; the run
reports the key as skipped. -/
theorem C3_witness :
    ((⟨1, 5, 90, 4, .ABSENT, .MANUAL, some "adjusted by TL", some 2⟩ :
        CallAttendanceRow) ∈
      (⟨[1], [⟨1, 5, 300, 9⟩], [⟨1, 171, 121, 120, true⟩],
        [⟨1, 5, 90, 4, .ABSENT, .MANUAL, some "adjusted by TL", some 2⟩], []⟩ :
        DB).attendances) ∧
    1 ≤ (⟨0, 1, "Success"⟩ : ReconcileStats).skipped :=
  ⟨by decide,
    ((C3_manual_override_durability (fun _ => true)
        ⟨[1], [⟨1, 5, 300, 9⟩], [⟨1, 171, 121, 120, true⟩],
          [⟨1, 5, 90, 4, .ABSENT, .MANUAL, some "adjusted by TL", some 2⟩], []⟩ 5
        ⟨1, 5, 90, 4, .ABSENT, .MANUAL, some "adjusted by TL", some 2⟩
        (by decide) rfl rfl).2 ⟨0, 1, "Success"⟩ rfl rfl).2
      ⟨1, 5, 300, 9⟩ (by decide) rfl rfl⟩

/-- C4: reconcileDay is idempotent on a state without MANUAL records whose
call logs carry one row per employee for the date: the second run returns
the same result, leaves the attendance rows exactly as the first run left
them, and neither run touches the audit trail or the call logs. -/
theorem C4_reconcile_idempotent (wd : ℕ → Bool) (db : DB) (d : ℕ)
    (r1 r2 : Except String ReconcileStats) (db1 db2 : DB)
    (hnm : ∀ a ∈ db.attendances, a.source ≠ Source.MANUAL)
    (hnd : ((db.call_logs.filter fun l => l.call_date == d).map
      (·.employee_id)).Nodup)
    (h1 : CallAttendanceService.calculate_daily_attendance wd db d = (r1, db1))
    (h2 : CallAttendanceService.calculate_daily_attendance wd db1 d = (r2, db2)) :
    r2 = r1 ∧ db2.attendances = db1.attendances ∧
    db1.audits = db.audits ∧ db2.audits = db.audits ∧
    db1.call_logs = db.call_logs ∧ db2.call_logs = db.call_logs := by
  by_cases hw : wd d = true
  · cases hcfg : CallAttendanceService.get_active_config db with
    | none =>
      simp only [CallAttendanceService.calculate_daily_attendance, hw, not_true,
        if_false, hcfg, Prod.mk.injEq] at h1
      obtain ⟨hr1, hdb1⟩ := h1
      subst hdb1
      simp only [CallAttendanceService.calculate_daily_attendance, hw, not_true,
        if_false, hcfg, Prod.mk.injEq] at h2
      obtain ⟨hr2, hdb2⟩ := h2
      subst hdb2
      exact ⟨hr2.symm.trans hr1, rfl, rfl, rfl, rfl, rfl⟩
    | some config =>
      obtain ⟨e1, e2⟩ := reconcile_fold_no_manual config d
        (db.call_logs.filter fun l => l.call_date == d) 0 0 db.attendances hnm
      simp only [CallAttendanceService.calculate_daily_attendance, hw, not_true,
        if_false, hcfg, e1, Prod.mk.injEq] at h1
      obtain ⟨hr1, hdb1⟩ := h1
      have hcfg1 : CallAttendanceService.get_active_config db1 = some config := by
        rw [← hdb1]
        exact hcfg
      have hlogs1 : db1.call_logs = db.call_logs := by
        rw [← hdb1]
      obtain ⟨f1, f2⟩ := reconcile_fold_no_manual config d
        (db1.call_logs.filter fun l => l.call_date == d) 0 0 db1.attendances
        (by rw [← hdb1]; exact e2)
      simp only [CallAttendanceService.calculate_daily_attendance, hw, not_true,
        if_false, hcfg1, f1, Prod.mk.injEq] at h2
      obtain ⟨hr2, hdb2⟩ := h2
      have hatts1 : db1.attendances = upsertFold config d db.attendances
          (db.call_logs.filter fun l => l.call_date == d) := by
        rw [← hdb1]
      have hidem : upsertFold config d db1.attendances
          (db1.call_logs.filter fun l => l.call_date == d) = db1.attendances := by
        rw [hlogs1, hatts1]
        exact upsertFold_idem config d _ db.attendances hnd
      refine ⟨?_, ?_, ?_, ?_, ?_, ?_⟩
      · rw [← hr1, ← hr2, hlogs1]
      · rw [← hdb2]
        simp [hidem]
      · rw [← hdb1]
      · rw [← hdb2, ← hdb1]
      · rw [← hdb1]
      · rw [← hdb2, ← hdb1]
  · simp only [CallAttendanceService.calculate_daily_attendance, if_pos hw,
      Prod.mk.injEq] at h1
    obtain ⟨hr1, hdb1⟩ := h1
    subst hdb1
    simp only [CallAttendanceService.calculate_daily_attendance, if_pos hw,
      Prod.mk.injEq] at h2
    obtain ⟨hr2, hdb2⟩ := h2
    subst hdb2
    exact ⟨hr2.symm.trans hr1, rfl, rfl, rfl, rfl, rfl⟩

/-- C4 witness: the idempotence theorem applied to a state with one call
log of 200 minutes for employee 1 on working date 5 and no MANUAL
records. -/
theorem C4_witness :
    (∀ a ∈ (⟨[1], [⟨1, 5, 200, 10⟩], [⟨1, 171, 121, 120, true⟩], [], []⟩ :
      DB).attendances, a.source ≠ Source.MANUAL) ∧
    (Except.ok ⟨1, 0, "Success"⟩ : Except String ReconcileStats) =
      .ok ⟨1, 0, "Success"⟩ :=
  ⟨by decide,
    (C4_reconcile_idempotent (fun _ => true)
      ⟨[1], [⟨1, 5, 200, 10⟩], [⟨1, 171, 121, 120, true⟩], [], []⟩ 5
      (.ok ⟨1, 0, "Success"⟩) (.ok ⟨1, 0, "Success"⟩)
      ⟨[1], [⟨1, 5, 200, 10⟩], [⟨1, 171, 121, 120, true⟩],
        [⟨1, 5, 200, 10, .PRESENT, .AUTO, none, none⟩], []⟩
      ⟨[1], [⟨1, 5, 200, 10⟩], [⟨1, 171, 121, 120, true⟩],
        [⟨1, 5, 200, 10, .PRESENT, .AUTO, none, none⟩], []⟩
      (by decide) (by decide) rfl rfl).1⟩

/-- The upserted row is always present afterwards. -/
lemma upsertAttendance_mem_self (l : List CallAttendanceRow)
    (row : CallAttendanceRow) : row ∈ upsertAttendance l row := by
  unfold upsertAttendance
  split
  · rename_i hany
    obtain ⟨a, ha, hkk⟩ := List.any_eq_true.mp hany
    exact List.mem_map.mpr ⟨a, ha, by rw [if_pos hkk]⟩
  · exact List.mem_append_right _ (List.mem_singleton_self row)

/-- Characterisation of a successful manual_update_attendance call: the
returned row is the MANUAL row built from the arguments and the active
configuration, and the new state upserts it and appends exactly one audit
row built from the stored pre-update values. -/
lemma manual_update_attendance_ok {db : DB} {employee_id attendance_date : ℕ}
    {call_duration call_count : ℕ} {u : User} {att : CallAttendanceRow} {db1 : DB}
    (h : CallAttendanceService.manual_update_attendance db employee_id attendance_date
      call_duration call_count u = .ok (att, db1)) :
    ∃ updated_by, u.employee = some updated_by ∧
    ∃ config, CallAttendanceService.get_active_config db = some config ∧
    att = ⟨employee_id, attendance_date, call_duration, call_count,
      CallAttendanceService.calculate_attendance_status call_duration config,
      .MANUAL, some "Manual update", some updated_by⟩ ∧
    db1 = { db with
      attendances := upsertAttendance db.attendances att
      audits := db.audits ++
        [⟨employee_id, attendance_date,
          (oldValuesAt db.attendances employee_id attendance_date).1,
          (oldValuesAt db.attendances employee_id attendance_date).2.1,
          (oldValuesAt db.attendances employee_id attendance_date).2.2,
          call_duration, call_count,
          CallAttendanceService.calculate_attendance_status call_duration config,
          "Manual update", updated_by⟩] } := by
  unfold CallAttendanceService.manual_update_attendance at h
  split at h
  · cases h
  · split at h
    · cases h
    · rename_i updated_by hemp
      split at h
      · cases h
      · split at h
        · cases h
        · rename_i config hcfg
          simp only [Except.ok.injEq, Prod.mk.injEq] at h
          obtain ⟨hatt, hdb⟩ := h
          exact ⟨updated_by, hemp, config, hcfg, hatt.symm, by rw [← hdb, ← hatt]⟩

/-- C5: every successful manualUpdate call appends exactly one audit row;
its old triple equals the stored pre-update values (or the creation
defaults when no row existed) and its new triple equals the values of the
updated record, which is stored. -/
theorem C5_audit_on_manual_update (db : DB) (employee_id attendance_date : ℕ)
    (call_duration call_count : ℕ) (u : User) (att : CallAttendanceRow) (db1 : DB)
    (h : CallAttendanceService.manual_update_attendance db employee_id attendance_date
      call_duration call_count u = .ok (att, db1)) :
    ∃ row : CallAttendanceAuditRow,
      db1.audits = db.audits ++ [row] ∧
      (row.old_call_duration, row.old_call_count, row.old_status) =
        oldValuesAt db.attendances employee_id attendance_date ∧
      (row.new_call_duration, row.new_call_count, row.new_status) =
        (att.call_duration_minutes, att.call_count, att.attendance_status) ∧
      att.call_duration_minutes = call_duration ∧
      att.call_count = call_count ∧
      att.source = .MANUAL ∧
      att ∈ db1.attendances := by
  obtain ⟨updated_by, _, config, _, hatt, hdb⟩ := manual_update_attendance_ok h
  refine ⟨⟨employee_id, attendance_date,
    (oldValuesAt db.attendances employee_id attendance_date).1,
    (oldValuesAt db.attendances employee_id attendance_date).2.1,
    (oldValuesAt db.attendances employee_id attendance_date).2.2,
    call_duration, call_count,
    CallAttendanceService.calculate_attendance_status call_duration config,
    "Manual update", updated_by⟩, ?_, rfl, ?_, ?_, ?_, ?_, ?_⟩
  · rw [hdb]
  · rw [hatt]
  · rw [hatt]
  · rw [hatt]
  · rw [hatt]
  · rw [hdb]
    simp only
    exact upsertAttendance_mem_self db.attendances att

/-- C5 witness: the audit theorem applied to a concrete successful update
that only lowers the duration from 200 to 190 minutes, keeping the PRESENT
bucket: the audit row still records the numeric change. -/
theorem C5_witness :
    CallAttendanceService.manual_update_attendance
        ⟨[7], [], [⟨1, 171, 121, 120, true⟩],
          [⟨7, 3, 200, 20, .PRESENT, .AUTO, none, none⟩], []⟩ 7 3 190 20
        ⟨true, some 9, none, false⟩ =
      .ok (⟨7, 3, 190, 20, .PRESENT, .MANUAL, some "Manual update", some 9⟩,
        ⟨[7], [], [⟨1, 171, 121, 120, true⟩],
          [⟨7, 3, 190, 20, .PRESENT, .MANUAL, some "Manual update", some 9⟩],
          [⟨7, 3, 200, 20, .PRESENT, 190, 20, .PRESENT, "Manual update", 9⟩]⟩) ∧
    ∃ row : CallAttendanceAuditRow,
      (⟨[7], [], [⟨1, 171, 121, 120, true⟩],
        [⟨7, 3, 190, 20, .PRESENT, .MANUAL, some "Manual update", some 9⟩],
        [⟨7, 3, 200, 20, .PRESENT, 190, 20, .PRESENT, "Manual update", 9⟩]⟩ :
          DB).audits =
        (⟨[7], [], [⟨1, 171, 121, 120, true⟩],
          [⟨7, 3, 200, 20, .PRESENT, .AUTO, none, none⟩], []⟩ : DB).audits ++ [row] ∧
      (row.old_call_duration, row.old_call_count, row.old_status) =
        oldValuesAt (⟨[7], [], [⟨1, 171, 121, 120, true⟩],
          [⟨7, 3, 200, 20, .PRESENT, .AUTO, none, none⟩], []⟩ : DB).attendances 7 3 ∧
      (row.new_call_duration, row.new_call_count, row.new_status) =
        ((⟨7, 3, 190, 20, .PRESENT, .MANUAL, some "Manual update", some 9⟩ :
          CallAttendanceRow).call_duration_minutes,
         (⟨7, 3, 190, 20, .PRESENT, .MANUAL, some "Manual update", some 9⟩ :
          CallAttendanceRow).call_count,
         (⟨7, 3, 190, 20, .PRESENT, .MANUAL, some "Manual update", some 9⟩ :
          CallAttendanceRow).attendance_status) ∧
      (⟨7, 3, 190, 20, .PRESENT, .MANUAL, some "Manual update", some 9⟩ :
        CallAttendanceRow).call_duration_minutes = 190 ∧
      (⟨7, 3, 190, 20, .PRESENT, .MANUAL, some "Manual update", some 9⟩ :
        CallAttendanceRow).call_count = 20 ∧
      (⟨7, 3, 190, 20, .PRESENT, .MANUAL, some "Manual update", some 9⟩ :
        CallAttendanceRow).source = .MANUAL ∧
      (⟨7, 3, 190, 20, .PRESENT, .MANUAL, some "Manual update", some 9⟩ :
        CallAttendanceRow) ∈
        (⟨[7], [], [⟨1, 171, 121, 120, true⟩],
          [⟨7, 3, 190, 20, .PRESENT, .MANUAL, some "Manual update", some 9⟩],
          [⟨7, 3, 200, 20, .PRESENT, 190, 20, .PRESENT, "Manual update", 9⟩]⟩ :
            DB).attendances :=
  ⟨rfl, C5_audit_on_manual_update _ 7 3 190 20 ⟨true, some 9, none, false⟩ _ _ rfl⟩

/-- C6 counterexample: the claim asserts that every manualUpdate call with
a missing or empty reason is rejected before any mutation and that
successful calls store the caller-supplied reason.  The service-layer
manual_update_attendance takes no reason argument at all, yet succeeds and
mutates the state, storing the fixed string Manual update as both the
record's manual_reason and the audit row's reason. -/
theorem C6_counterexample :
    CallAttendanceService.manual_update_attendance
        ⟨[7], [], [⟨1, 171, 121, 120, true⟩], [], []⟩ 7 3 150 12
        ⟨true, some 9, none, false⟩ =
      .ok (⟨7, 3, 150, 12, .HALF_DAY, .MANUAL, some "Manual update", some 9⟩,
        ⟨[7], [], [⟨1, 171, 121, 120, true⟩],
          [⟨7, 3, 150, 12, .HALF_DAY, .MANUAL, some "Manual update", some 9⟩],
          [⟨7, 3, 0, 0, .ABSENT, 150, 12, .HALF_DAY, "Manual update", 9⟩]⟩) :=
  rfl

/-- C6 (amended): the view-layer validator rejects a missing or blank
reason (it records an error for any reason under 10 characters once
stripped), while the service-layer manual_update_attendance accepts no
reason at all and stores the fixed string Manual update as the record's
manual_reason and as the reason of every audit row it appends. -/
theorem C6_reason_required (r : String) (hr : r = "" ∨ r.trim = "")
    (db : DB) (employee_id attendance_date call_duration call_count : ℕ)
    (u : User) (att : CallAttendanceRow) (db1 : DB)
    (h : CallAttendanceService.manual_update_attendance db employee_id attendance_date
      call_duration call_count u = .ok (att, db1)) :
    AttendanceValidator.reason_has_error r = true ∧
    att.manual_reason = some "Manual update" ∧
    ∀ row ∈ db1.audits, row ∉ db.audits → row.reason = "Manual update" := by
  obtain ⟨updated_by, _, config, _, hatt, hdb⟩ := manual_update_attendance_ok h
  refine ⟨?_, ?_, ?_⟩
  · rcases hr with rfl | hr2
    · simp [AttendanceValidator.reason_has_error]
    · simp [AttendanceValidator.reason_has_error, hr2]
  · rw [hatt]
  · intro row hrow hnot
    rw [hdb] at hrow
    simp only at hrow
    rcases List.mem_append.mp hrow with hmem | hmem
    · exact absurd hmem hnot
    · rw [List.mem_singleton.mp hmem]

/-- C6 witness: the amended theorem applied to the empty reason and a
concrete successful service call. -/
theorem C6_witness :
    (("" : String) = "" ∨ ("" : String).trim = "") ∧
    (AttendanceValidator.reason_has_error "" = true ∧
      (⟨7, 3, 150, 12, .HALF_DAY, .MANUAL, some "Manual update", some 9⟩ :
        CallAttendanceRow).manual_reason = some "Manual update" ∧
      ∀ row ∈ (⟨[7], [], [⟨1, 171, 121, 120, true⟩],
          [⟨7, 3, 150, 12, .HALF_DAY, .MANUAL, some "Manual update", some 9⟩],
          [⟨7, 3, 0, 0, .ABSENT, 150, 12, .HALF_DAY, "Manual update", 9⟩]⟩ :
            DB).audits,
        row ∉ (⟨[7], [], [⟨1, 171, 121, 120, true⟩], [], []⟩ : DB).audits →
          row.reason = "Manual update") :=
  ⟨Or.inl rfl, C6_reason_required "" (Or.inl rfl)
    ⟨[7], [], [⟨1, 171, 121, 120, true⟩], [], []⟩ 7 3 150 12
    ⟨true, some 9, none, false⟩
    ⟨7, 3, 150, 12, .HALF_DAY, .MANUAL, some "Manual update", some 9⟩
    ⟨[7], [], [⟨1, 171, 121, 120, true⟩],
      [⟨7, 3, 150, 12, .HALF_DAY, .MANUAL, some "Manual update", some 9⟩],
      [⟨7, 3, 0, 0, .ABSENT, 150, 12, .HALF_DAY, "Manual update", 9⟩]⟩ rfl⟩

/-- Every row produced by the deactivation sweep of CallAttendanceConfig.save
is inactive. -/
lemma deactivated_inactive (c : CallAttendanceConfigRow) :
    ((if c.is_active then { c with is_active := false } else c) :
      CallAttendanceConfigRow).is_active = false := by
  by_cases h : c.is_active = true <;> simp [h]

/-- The deactivation sweep preserves row ids. -/
lemma deactivated_id (c : CallAttendanceConfigRow) :
    ((if c.is_active then { c with is_active := false } else c) :
      CallAttendanceConfigRow).id = c.id := by
  by_cases h : c.is_active = true <;> simp [h]

/-- Saving a new active configuration appends it after deactivating every
stored row. -/
lemma CallAttendanceConfig.save_new_active (configs : List CallAttendanceConfigRow)
    (b : CallAttendanceConfigRow) (hb : b.is_active = true)
    (hnew : ∀ c ∈ configs, c.id ≠ b.id) :
    CallAttendanceConfig.save configs b =
      (configs.map fun c => if c.is_active then { c with is_active := false } else c)
        ++ [b] := by
  unfold CallAttendanceConfig.save
  rw [if_pos hb]
  rw [if_neg]
  simp only [List.any_map, List.any_eq_true, Function.comp]
  rintro ⟨c, hc, hid⟩
  rw [deactivated_id] at hid
  exact hnew c hc (by simpa using hid)

/-- C9: saving a new configuration with the active flag set results in
exactly one active configuration — the new one — with every previously
stored configuration present but deactivated. -/
theorem C9_exclusive_activation (configs : List CallAttendanceConfigRow)
    (b : CallAttendanceConfigRow) (hb : b.is_active = true)
    (hnew : ∀ c ∈ configs, c.id ≠ b.id) :
    (CallAttendanceConfig.save configs b).countP (·.is_active) = 1 ∧
    (∀ c ∈ CallAttendanceConfig.save configs b, c.is_active = true → c = b) ∧
    (∀ c ∈ configs,
      ({ c with is_active := false } : CallAttendanceConfigRow) ∈
        CallAttendanceConfig.save configs b) := by
  rw [CallAttendanceConfig.save_new_active configs b hb hnew]
  refine ⟨?_, ?_, ?_⟩
  · rw [List.countP_append]
    have hz : (configs.map fun c =>
        if c.is_active then { c with is_active := false } else c).countP
          (·.is_active) = 0 := by
      rw [List.countP_eq_zero]
      intro c hc
      obtain ⟨x, _, rfl⟩ := List.mem_map.mp hc
      simp [deactivated_inactive]
    rw [hz]
    simp [hb]
  · intro c hc hact
    rcases List.mem_append.mp hc with hmem | hmem
    · obtain ⟨x, _, rfl⟩ := List.mem_map.mp hmem
      rw [deactivated_inactive] at hact
      cases hact
    · simpa using hmem
  · intro c hc
    refine List.mem_append_left _ ?_
    have : ({ c with is_active := false } : CallAttendanceConfigRow) =
        if c.is_active then { c with is_active := false } else c := by
      by_cases h : c.is_active = true
      · rw [if_pos h]
      · rw [if_neg h]
        cases c
        simp_all
    rw [this]
    exact List.mem_map_of_mem _ hc

/-- C9 witness: the activation theorem applied to a store holding one
active configuration and a fresh active configuration. -/
theorem C9_witness :
    (⟨2, 180, 120, 100, true⟩ : CallAttendanceConfigRow).is_active = true ∧
    (CallAttendanceConfig.save [⟨1, 171, 121, 120, true⟩]
      ⟨2, 180, 120, 100, true⟩).countP (·.is_active) = 1 :=
  ⟨rfl, (C9_exclusive_activation [⟨1, 171, 121, 120, true⟩] ⟨2, 180, 120, 100, true⟩
    rfl (by decide)).1⟩

/-- C10 witness: the amended agreement theorem applied at 3 Lac. -/
theorem C10_witness :
    (0 : ℚ) < 3 ∧ (3 : ℚ) ≤ 5 ∧
    (SalesIncentiveService.get_incentive_preview stdSlabs 3).total_incentive =
      (IncentiveCalculation.calculate_incentive ⟨0, 0, 0, 30, 0, false⟩ [⟨3 * 100000, 0⟩]
        stdSlabs).incentive_amount :=
  ⟨by norm_num, by norm_num,
    C10_preview_vs_persisted 3 (by norm_num) (by norm_num) ⟨0, 0, 0, 30, 0, false⟩⟩

end HorillaHrms
